import Mathlib

/-!
# Verification of the structured-error value engine (eluv-io/errors-go)

Shallow embedding of the Error value engine: the insertion-ordered field
store (`orderedMap`), kind resolution (`effectiveKind`), stack coalescing
(`combineCallStacks`), the order-preserving JSON serializer/deserializer
(`marshalFields`/`UnmarshalJSON`) and the textual formatter (`toString` /
`writeFields`).

Go `interface{}` values are embedded as the inductive `Val`; Go `error`
values as `GoErr` (either a structured `*Error` or an opaque external
error carrying only its display string).  Machine-level aspects without
semantic content (slice capacity in `Grow`, the atomic counter's memory
order, lazy `trace` resolution of captured program counters) are elided;
everything observable (field order, strings produced, structure of the
marshalled document, positions assigned by the decoding hook) is
translated statement by statement from the source.

The process-wide configuration toggles (`PrintStacktrace`,
`MarshalStacktrace`, `MarshalStacktraceAsArray`, `DefaultFieldOrder`,
`Separator`, ...) are threaded as an explicit `Config` record.
-/

set_option maxHeartbeats 1000000

namespace ErrorsGo

/-- Process-wide configuration toggles of the package (errors.go):
`PrintStacktrace`, `PrintStacktracePretty`, `MarshalStacktrace`,
`MarshalStacktraceAsArray`, `DefaultFieldOrder` (`[]` plays the role of
the Go `nil` default), `Separator` and `populateStacktrace`. -/
structure Config where
  printStacktrace : Bool := true
  printStacktracePretty : Bool := true
  marshalStacktrace : Bool := true
  marshalStacktraceAsArray : Bool := true
  defaultFieldOrder : List String := []
  separator : String := ":\n\t"
  populateStacktrace : Bool := true
deriving Repr

/-- One resolved call frame (stack.go / eluv-io/stack).  `funcId` stands for
the `*runtime.Func` pointer identity (`Frame.Func`), `function` for the
fully qualified function name, `name` for the short name printed by the
`%n` verb, `pc` for the raw program counter. -/
structure Frame where
  entry : Nat
  file : String
  funcId : Nat
  function : String
  line : Nat
  pc : Nat
  name : String
deriving DecidableEq, Repr

/-- stack.go `equivalent`: frames are equivalent when entry point, file,
function identity and line agree; the raw pc is intentionally ignored. -/
def equivalent (c1 c2 : Frame) : Bool :=
  c1.entry = c2.entry && c1.file = c2.file && c1.funcId = c2.funcId &&
    c1.function = c2.function && c1.line = c2.line

/-- Length of the run of pairwise `equivalent` frames at the start of the two
(already reversed) traces: this is the loop variable `i` of
`combineCallStacks`, which walks both stacks from their ends. -/
def eqRunRev : List Frame → List Frame → Nat
  | a :: as, b :: bs => if equivalent a b then eqRunRev as bs + 1 else 0
  | _, _ => 0

/-- stack.go `combineCallStacks(c1, c2)`: `c1` is the trace of the outer
error, `c2` the (already coalesced) trace of its cause.  Computes the
length `i` of the common trailing run and returns `c2[:len(c2)-i] ++ c1`. -/
def combineCallStacks (c1 c2 : List Frame) : List Frame :=
  if c1 = [] then c2
  else if c2 = [] then c1
  else
    let i := eqRunRev c1.reverse c2.reverse
    c2.take (c2.length - i) ++ c1

mutual
/-- A Go `interface{}` value as passed to `E`/`With`/the field store:
strings, integers, `Kind`, `DefaultKind`, `error` values, `[]interface{}`
slices, generic JSON-decoded maps, the untyped `nil`, and `float64` values
as produced by `json.Unmarshal` of a JSON number (`vnum n` holds the
integral value of the float; the embedding models the float64-exact range
`|n| ≤ 2^53`). -/
inductive Val : Type where
  | str (s : String)
  | vint (n : Int)
  | vnum (n : Int)
  | kindV (k : String)
  | dkindV (k : String)
  | errV (ge : GoErr)
  | slice (vs : List Val)
  | vmap (ms : List (String × Val))
  | vnil

/-- A Go `error` value: a structured `*Error` of this package, or an opaque
external error observable only through its `Error()` string. -/
inductive GoErr : Type where
  | structured (e : Error)
  | opaqueE (msg : String)

/-- errors.go `Error`: op, kind, defaultKind, optional cause, ordered
key/value fields, optional captured stack (`pcs`/`trace` collapsed into the
resolved frames), `ignoreStack` and `unmarshalledStacktrace`. -/
inductive Error : Type where
  | mk (op : String) (kind : String) (defaultKind : String)
       (cause : Option GoErr)
       (fields : List (String × Val))
       (stk : Option (List Frame))
       (ignoreStack : Bool)
       (unmarshalledStacktrace : String)
end

namespace Error

def op : Error → String
  | .mk o _ _ _ _ _ _ _ => o

def kind : Error → String
  | .mk _ k _ _ _ _ _ _ => k

def defaultKind : Error → String
  | .mk _ _ d _ _ _ _ _ => d

def cause : Error → Option GoErr
  | .mk _ _ _ c _ _ _ _ => c

def fields : Error → List (String × Val)
  | .mk _ _ _ _ f _ _ _ => f

def stk : Error → Option (List Frame)
  | .mk _ _ _ _ _ s _ _ => s

def ignoreStack : Error → Bool
  | .mk _ _ _ _ _ _ i _ => i

def unmarshalledStacktrace : Error → String
  | .mk _ _ _ _ _ _ _ u => u

/-- The zero value `Error{}`. -/
def zero : Error := .mk "" "" "" none [] none false ""

/-- errors.go `isZero`. -/
def isZero (e : Error) : Bool :=
  e.op = "" && e.kind = "" && e.cause.isNone && e.fields.length = 0

end Error

/-- kind.go: the pre-defined kind `K.Other` ("unclassified error"). -/
def K_Other : String := "unclassified error"

/-- kind.go `K.Invalid`. -/
def K_Invalid : String := "invalid"

/-- kind.go `K.Timeout`. -/
def K_Timeout : String := "operation timed out"

/-- kind.go `K.NotExist`. -/
def K_NotExist : String := "item does not exist"

/-- kind.go `K.IO`. -/
def K_IO : String := "I/O error"

/-- errors.go `effectiveKind`: explicit kind wins; otherwise the default is
threaded down into a structured cause (replaced at each level that sets its
own `defaultKind`, initialized to `K.Other` when still empty), and the
cause's resolution is preferred when non-empty. -/
def Error.effectiveKind : Error → String → String
  | .mk _ kind dk cause _ _ _ _, dfl =>
    if kind ≠ "" then kind
    else
      let dfl := if dk ≠ "" then dk else if dfl = "" then K_Other else dfl
      match cause with
      | some (.structured c) =>
        let eff := c.effectiveKind dfl
        if eff ≠ "" then eff else dfl
      | _ => dfl

/-- errors.go `Kind()`: the effective kind with fallback `K.Other`. -/
def Error.Kind (e : Error) : String := e.effectiveKind K_Other

/-- stack.go `hasStack`: this error or any structured cause has captured
program counters. -/
def Error.hasStack : Error → Bool
  | .mk _ _ _ cause _ stk _ _ =>
    if stk ≠ none then true
    else match cause with
      | some (.structured c) => c.hasStack
      | _ => false

/-- stack.go `coalesceStack`: the error's own resolved trace combined with
the coalesced trace of a structured cause. -/
def Error.coalesceStack : Error → List Frame
  | .mk _ _ _ cause _ stk _ _ =>
    let trace := stk.getD []
    match cause with
    | some (.structured c) => combineCallStacks trace c.coalesceStack
    | _ => trace

/-! ## The ordered field store (orderedMap.go) -/

/-- orderedMap `Get`: first matching value and a found flag. -/
def omGet (a : List (String × Val)) (key : String) : Option Val :=
  match a with
  | [] => none
  | (k, v) :: rest => if k = key then some v else omGet rest key

/-! ## writeFields (errors.go): the shared field-ordering walk

`writeFields` drives both the textual rendering and the JSON marshalling
through a `writeKV` callback.  The embedding first computes the exact
sequence of `writeKV` invocations (`writeFieldsSeq`); renderer and
marshaller then fold over that sequence. -/

/-- One `writeKV(key, val)` invocation: the op (`writeKV("op", e.op)`), the
kind (`writeKV("kind", e.Kind())`), a store field, or the cause
(`writeKV("cause", e.cause)`). -/
inductive FieldEmit : Type where
  | eop
  | ekind
  | efield (k : String) (v : Val)
  | ecause (c : GoErr)

/-- The key under which an emission is written. -/
def FieldEmit.key : FieldEmit → String
  | .eop => "op"
  | .ekind => "kind"
  | .efield k _ => k
  | .ecause _ => "cause"

/-- errors.go `writeFields`' `unreferenced` closure: `"stacktrace"` is
treated as referenced when stack printing is off; otherwise a key is
unreferenced iff it does not occur in the field order. -/
def unreferenced (cfg : Config) (order : List String) (key : String) : Bool :=
  if key = "stacktrace" && !cfg.printStacktrace then false
  else !(order.contains key)

/-- errors.go `Error.field`: lookup of an explicitly ordered key, mapped to
the emission it produces ("op"/"kind"/"cause" are structural, everything
else hits the store). -/
def Error.fieldEmit (e : Error) (key : String) : Option FieldEmit :=
  match key with
  | "op" => if e.op ≠ "" then some .eop else none
  | "kind" => some .ekind
  | "cause" =>
    match e.cause with
    | some c => some (.ecause c)
    | none => none
  | _ =>
    match omGet e.fields key with
    | some v => some (.efield key v)
    | none => none

/-- errors.go `printOtherFields`: op and kind first (when unreferenced),
then the unreferenced store fields in insertion order, then the cause. -/
def othersSeq (cfg : Config) (order : List String) (e : Error) : List FieldEmit :=
  (if e.op ≠ "" && unreferenced cfg order "op" then [.eop] else []) ++
  (if unreferenced cfg order "kind" then [.ekind] else []) ++
  ((e.fields.filter fun p => unreferenced cfg order p.1).map fun p => .efield p.1 p.2) ++
  (match e.cause with
   | some c => if unreferenced cfg order "cause" then [.ecause c] else []
   | none => [])

/-- The loop of `writeFields` over the field order, with the
`printOthers` once-flag; the trailing `printOtherFields()` call is the
`[]` case. -/
def writeFieldsGo (e : Error) (others : List FieldEmit) :
    List String → Bool → List FieldEmit
  | [], printed => if printed then [] else others
  | k :: rest, printed =>
    if k = "" then
      if printed then writeFieldsGo e others rest printed
      else others ++ writeFieldsGo e others rest true
    else
      match e.fieldEmit k with
      | some em => em :: writeFieldsGo e others rest printed
      | none => writeFieldsGo e others rest printed

/-- errors.go `writeFields`: the exact sequence of `writeKV` invocations for
the given field order. -/
def writeFieldsSeq (cfg : Config) (e : Error) (order : List String) :
    List FieldEmit :=
  writeFieldsGo e (othersSeq cfg order e) order false

theorem mem_omGet {a : List (String × Val)} {key : String} {v : Val}
    (h : omGet a key = some v) : (key, v) ∈ a := by
  induction a with
  | nil => simp [omGet] at h
  | cons p rest ih =>
    obtain ⟨k, v'⟩ := p
    by_cases hk : k = key
    · simp [omGet, hk] at h
      simp [hk, h]
    · simp [omGet, hk] at h
      exact List.mem_cons_of_mem _ (ih h)

theorem mem_fields_of_fieldEmit {e : Error} {key k : String} {v : Val}
    (h : e.fieldEmit key = some (.efield k v)) : (k, v) ∈ e.fields := by
  unfold Error.fieldEmit at h
  split at h
  · split at h <;> simp_all
  · simp_all
  · split at h <;> simp_all
  · split at h
    · simp only [Option.some.injEq, FieldEmit.efield.injEq] at h
      obtain ⟨h1, h2⟩ := h
      subst h1 h2
      exact mem_omGet (by assumption)
    · simp_all

theorem mem_fields_of_othersSeq {cfg : Config} {order : List String}
    {e : Error} {k : String} {v : Val}
    (h : FieldEmit.efield k v ∈ othersSeq cfg order e) : (k, v) ∈ e.fields := by
  unfold othersSeq at h
  simp only [List.mem_append] at h
  rcases h with ((h | h) | h) | h
  · split at h <;> simp_all
  · split at h <;> simp_all
  · simp only [List.mem_map] at h
    obtain ⟨p, hp, hpe⟩ := h
    obtain ⟨h1, h2⟩ := FieldEmit.efield.inj hpe
    subst h1 h2
    exact List.mem_of_mem_filter hp
  · split at h
    · split at h <;> simp_all
    · simp_all

theorem mem_fields_of_writeFieldsGo {e : Error} {others : List FieldEmit}
    {order : List String} {b : Bool} {k : String} {v : Val}
    (hothers : ∀ k' v', FieldEmit.efield k' v' ∈ others → (k', v') ∈ e.fields)
    (h : FieldEmit.efield k v ∈ writeFieldsGo e others order b) :
    (k, v) ∈ e.fields := by
  induction order generalizing b with
  | nil =>
    unfold writeFieldsGo at h
    split at h
    · simp at h
    · exact hothers _ _ h
  | cons key rest ih =>
    unfold writeFieldsGo at h
    by_cases hk : key = ""
    · rw [if_pos hk] at h
      split at h
      · exact ih h
      · rcases List.mem_append.mp h with h | h
        · exact hothers _ _ h
        · exact ih h
    · rw [if_neg hk] at h
      cases hfe : e.fieldEmit key with
      | none => rw [hfe] at h; exact ih h
      | some em =>
        rw [hfe] at h
        rcases List.mem_cons.mp h with h | h
        · rw [← h] at hfe
          exact mem_fields_of_fieldEmit hfe
        · exact ih h

/-- Any store-field emission produced by `writeFields` comes from the
error's field store. -/
theorem mem_fields_of_writeFieldsSeq {cfg : Config} {e : Error}
    {order : List String} {k : String} {v : Val}
    (h : FieldEmit.efield k v ∈ writeFieldsSeq cfg e order) :
    (k, v) ∈ e.fields :=
  mem_fields_of_writeFieldsGo
    (fun _ _ hm => mem_fields_of_othersSeq hm) h

theorem cause_of_fieldEmit {e : Error} {key : String} {c : GoErr}
    (h : e.fieldEmit key = some (.ecause c)) : e.cause = some c := by
  unfold Error.fieldEmit at h
  split at h
  · split at h <;> simp_all
  · simp_all
  · split at h <;> simp_all
  · split at h <;> simp_all

theorem cause_of_othersSeq {cfg : Config} {order : List String}
    {e : Error} {c : GoErr}
    (h : FieldEmit.ecause c ∈ othersSeq cfg order e) : e.cause = some c := by
  unfold othersSeq at h
  simp only [List.mem_append] at h
  rcases h with ((h | h) | h) | h
  · split at h <;> simp_all
  · split at h <;> simp_all
  · simp only [List.mem_map] at h
    obtain ⟨p, _, hpe⟩ := h
    cases hpe
  · split at h
    · split at h <;> simp_all
    · simp_all

theorem cause_of_writeFieldsGo {e : Error} {others : List FieldEmit}
    {order : List String} {b : Bool} {c : GoErr}
    (hothers : ∀ c', FieldEmit.ecause c' ∈ others → e.cause = some c')
    (h : FieldEmit.ecause c ∈ writeFieldsGo e others order b) :
    e.cause = some c := by
  induction order generalizing b with
  | nil =>
    unfold writeFieldsGo at h
    split at h
    · simp at h
    · exact hothers _ h
  | cons key rest ih =>
    unfold writeFieldsGo at h
    by_cases hk : key = ""
    · rw [if_pos hk] at h
      split at h
      · exact ih h
      · rcases List.mem_append.mp h with h | h
        · exact hothers _ h
        · exact ih h
    · rw [if_neg hk] at h
      cases hfe : e.fieldEmit key with
      | none => rw [hfe] at h; exact ih h
      | some em =>
        rw [hfe] at h
        rcases List.mem_cons.mp h with h | h
        · rw [← h] at hfe
          exact cause_of_fieldEmit hfe
        · exact ih h

theorem cause_of_writeFieldsSeq {cfg : Config} {e : Error}
    {order : List String} {c : GoErr}
    (h : FieldEmit.ecause c ∈ writeFieldsSeq cfg e order) : e.cause = some c :=
  cause_of_writeFieldsGo (fun _ hm => cause_of_othersSeq hm) h

theorem sizeOf_pair_lt_of_mem_fields {e : Error} {k : String} {v : Val}
    (h : (k, v) ∈ e.fields) : sizeOf (k, v) < sizeOf e := by
  cases e with
  | mk op kind dk cause fields stk ig ums =>
    simp only [Error.fields] at h
    have h1 : sizeOf (k, v) < sizeOf fields := List.sizeOf_lt_of_mem h
    simp only [Error.mk.sizeOf_spec]
    omega

theorem sizeOf_val_lt_of_mem_fields {e : Error} {k : String} {v : Val}
    (h : (k, v) ∈ e.fields) : sizeOf v < sizeOf e := by
  have h1 := sizeOf_pair_lt_of_mem_fields h
  simp only [Prod.mk.sizeOf_spec] at h1
  omega

theorem sizeOf_cause_structured {e : Error} {c : Error}
    (h : e.cause = some (.structured c)) : sizeOf c < sizeOf e := by
  cases e with
  | mk op kind dk cause fields stk ig ums =>
    simp only [Error.cause] at h
    subst h
    simp only [Error.mk.sizeOf_spec, Option.some.sizeOf_spec,
      GoErr.structured.sizeOf_spec]
    omega

theorem sizeOf_cause_lt {e : Error} {c : GoErr}
    (h : e.cause = some c) : sizeOf c + 1 < sizeOf e := by
  cases e with
  | mk op kind dk cause fields stk ig ums =>
    simp only [Error.cause] at h
    subst h
    simp only [Error.mk.sizeOf_spec, Option.some.sizeOf_spec]
    omega

/-- Every emission of `writeFields` is smaller than the error it was
computed from (the op/kind emissions carry no payload; field and cause
emissions embed components of the error). -/
theorem sizeOf_emit_lt {cfg : Config} {e : Error} {order : List String}
    {em : FieldEmit} (hm : em ∈ writeFieldsSeq cfg e order) :
    sizeOf em < sizeOf e := by
  cases em with
  | eop =>
    cases e with
    | mk o k dk c f s i u =>
      simp only [Error.mk.sizeOf_spec]
      cases i <;> simp <;> omega
  | ekind =>
    cases e with
    | mk o k dk c f s i u =>
      simp only [Error.mk.sizeOf_spec]
      cases i <;> simp <;> omega
  | efield k v =>
    have h3 := sizeOf_pair_lt_of_mem_fields (mem_fields_of_writeFieldsSeq hm)
    simp only [FieldEmit.efield.sizeOf_spec]
    simp only [Prod.mk.sizeOf_spec] at h3
    omega
  | ecause c =>
    have h1 := sizeOf_cause_lt (cause_of_writeFieldsSeq hm)
    simp only [FieldEmit.ecause.sizeOf_spec]
    omega

/-! ## Stack printing (stack.go `printStack`) -/

/-- The `%+v` rendering of a call: package-qualified file and line. -/
def frameFileLine (f : Frame) : String := f.file ++ ":" ++ toString f.line

/-- Left-justified padding to the given width (`%-*s`). -/
def padRight (s : String) (w : Nat) : String :=
  s ++ String.mk (List.replicate (w - s.length) ' ')

/-- stack.go `printStack`: the pretty form aligns function names to the
longest `file:line` column, the regular form separates with a tab. -/
def printStackStr (cfg : Config) (e : Error) : String :=
  let trace := e.coalesceStack
  if cfg.printStacktracePretty then
    let fls := trace.map frameFileLine
    let mx := fls.foldl (fun m s => Nat.max m s.length) 0
    String.join (trace.map fun c => "\t" ++ padRight (frameFileLine c) mx ++ " " ++ c.name ++ "()\n")
  else
    String.join (trace.map fun c => "\t" ++ frameFileLine c ++ "\t" ++ c.name ++ "()\n")

/-! ## Textual rendering (errors.go `toString` / `writeKeyVal` / `Error()`)

`fmt.Sprint` on embedded values is `sprint`; rendering a structured error
(`Error()`) and printing a value are mutually recursive because a
structured error may sit in a field value. -/

/-- util.go `pad` followed by writing `s`: a separating blank is inserted
only when the buffer already has content. -/
def padApp (acc s : String) : String :=
  (if acc = "" then "" else acc ++ " ") ++ s

/-- The generic branch of `writeKeyVal`: `key [value]`. -/
def writeKV (acc key sval : String) : String :=
  padApp acc (key ++ " [" ++ sval ++ "]")

/-- Rounding of an integer to float64 precision (53 significant bits, ties
to even), as performed by `json.Unmarshal` of a JSON number into
`interface{}`. -/
def fround53 (n : Int) : Int :=
  let m := n.natAbs
  if m ≤ 2 ^ 53 then n
  else
    let k := m.log2 - 52
    let q := m / 2 ^ k
    let r := m % 2 ^ k
    let half := 2 ^ (k - 1)
    let q2 := if half < r ∨ (r = half ∧ q % 2 = 1) then q + 1 else q
    let v : Int := (q2 * 2 ^ k : Nat)
    if n < 0 then -v else v

/-- strconv's shortest `%g` rendering of a float64 holding the integral
value `n` (what `fmt.Sprint` prints for a JSON-decoded number): plain
decimal digits below `1e6`, e-notation with trailing zeros stripped and a
two-digit exponent from `1e6` on.  Exact on the embedding's modelled range
`|n| ≤ 2^53`, where every integer is its own shortest representation. -/
def floatIntStr (n : Int) : String :=
  if n = 0 then "0"
  else
    let sign := if n < 0 then "-" else ""
    let m := n.natAbs
    let digits := toString m
    if m < 1000000 then sign ++ digits
    else
      let stripped := String.mk
        ((digits.toList.reverse.dropWhile fun c => c = '0').reverse)
      let exp := digits.length - 1
      let mant := if stripped.length = 1 then stripped
        else String.mk (stripped.toList.take 1) ++ "."
          ++ String.mk (stripped.toList.drop 1)
      sign ++ mant ++ "e+"
        ++ (if exp < 10 then "0" ++ toString exp else toString exp)

/-- The cause of an error as the renderer sees it: a structured cause with
its zero-flag and recursively rendered text, an opaque cause with its
display string, or no cause. -/
inductive CauseR : Type where
  | structuredR (isZero : Bool) (rendered : String)
  | opaqueR (msg : String)
  | noneR

mutual

/-- `fmt.Sprint` on an embedded Go value. -/
def sprint (cfg : Config) : Val → String
  | .str s => s
  | .vint n => toString n
  | .vnum n => floatIntStr n
  | .kindV k => k
  | .dkindV k => k
  | .errV ge => sprintErr cfg ge
  | .slice vs =>
    "[" ++ String.intercalate " " (vs.attach.map fun x => sprint cfg x.1) ++ "]"
  | .vmap ms =>
    let rend := ms.attach.map fun x => (x.1.1, sprint cfg x.1.2)
    let sorted := rend.insertionSort fun a b => a.1 ≤ b.1
    "map[" ++ String.intercalate " " (sorted.map fun p => p.1 ++ ":" ++ p.2) ++ "]"
  | .vnil => "<nil>"
termination_by v => sizeOf v
decreasing_by
  · simp only [Val.errV.sizeOf_spec]; omega
  · have := List.sizeOf_lt_of_mem x.2
    simp only [Val.slice.sizeOf_spec]
    omega
  · have h1 := List.sizeOf_lt_of_mem x.2
    have h2 : sizeOf x.1.2 < sizeOf x.1 := by
      obtain ⟨⟨a, b⟩, _⟩ := x
      simp only [Prod.mk.sizeOf_spec]
      omega
    simp only [Val.vmap.sizeOf_spec]
    omega

/-- `fmt.Sprint` on a Go error value: its `Error()` string. -/
def sprintErr (cfg : Config) : GoErr → String
  | .opaqueE m => m
  | .structured e => errToString cfg e true []
termination_by ge => sizeOf ge
decreasing_by
  simp only [GoErr.structured.sizeOf_spec]; omega

/-- errors.go `writeKeyVal` for one emission: the `"cause"` key is special
when the error's cause is a structured Error (nothing for a zero cause,
otherwise `cause` + separator + the cause rendered without stack); all
other emissions print `key [fmt.Sprint(value)]`. -/
def renderStep (cfg : Config) (causeR : CauseR) (opStr kindStr : String)
    (acc : String) : FieldEmit → String
  | .eop => writeKV acc "op" opStr
  | .ekind => writeKV acc "kind" kindStr
  | .efield k v =>
    if k = "cause" then
      match causeR with
      | .structuredR z r => if z then acc else padApp acc ("cause" ++ cfg.separator ++ r)
      | _ => writeKV acc k (sprint cfg v)
    else writeKV acc k (sprint cfg v)
  | .ecause c =>
    match causeR with
    | .structuredR z r => if z then acc else padApp acc ("cause" ++ cfg.separator ++ r)
    | _ => writeKV acc "cause" (sprintErr cfg c)
termination_by em => sizeOf em
decreasing_by
  · simp only [FieldEmit.efield.sizeOf_spec]; omega
  · simp only [FieldEmit.efield.sizeOf_spec]; omega
  · simp only [FieldEmit.ecause.sizeOf_spec]; omega

/-- errors.go `toString(printStacktrace, fieldOrder...)`: renders the fields
according to the (defaulted) field order, then appends the coalesced stack
when printing is enabled, the error was not unmarshalled, and a stack is
present. -/
def errToString (cfg : Config) (e : Error) (printStk : Bool)
    (fieldOrder : List String) : String :=
  let order := if fieldOrder.isEmpty then cfg.defaultFieldOrder else fieldOrder
  let causeR : CauseR :=
    match h : e.cause with
    | some (.structured c) => .structuredR c.isZero (errToString cfg c false [])
    | some (.opaqueE m) => .opaqueR m
    | none => .noneR
  let emits := writeFieldsSeq cfg e order
  let body := emits.attach.foldl
    (fun acc x => renderStep cfg causeR e.op e.Kind acc x.1) ""
  if printStk && cfg.printStacktrace && !e.ignoreStack && e.hasStack then
    body ++ "\n" ++ printStackStr cfg e
  else body
termination_by sizeOf e
decreasing_by
  · exact sizeOf_cause_structured h
  · exact sizeOf_emit_lt x.2

end

/-- The renderer's view of the cause (see `errToString`). -/
def causeRof (cfg : Config) (e : Error) : CauseR :=
  match e.cause with
  | some (.structured c) => .structuredR c.isZero (errToString cfg c false [])
  | some (.opaqueE m) => .opaqueR m
  | none => .noneR

/-- Plain-fold characterization of `errToString` (the `attach` used for
termination is erased). -/
theorem errToString_eq (cfg : Config) (e : Error) (printStk : Bool)
    (fieldOrder : List String) :
    errToString cfg e printStk fieldOrder =
      (let order := if fieldOrder.isEmpty then cfg.defaultFieldOrder else fieldOrder
       let body := (writeFieldsSeq cfg e order).foldl
         (renderStep cfg (causeRof cfg e) e.op e.Kind) ""
       if printStk && cfg.printStacktrace && !e.ignoreStack && e.hasStack then
         body ++ "\n" ++ printStackStr cfg e
       else body) := by
  rw [errToString]
  have hcause :
      (match h : e.cause with
        | some (.structured c) => CauseR.structuredR c.isZero (errToString cfg c false [])
        | some (.opaqueE m) => CauseR.opaqueR m
        | none => CauseR.noneR) = causeRof cfg e := by
    unfold causeRof
    rcases hc : e.cause with _ | ge
    · rfl
    · cases ge <;> rfl
  rw [hcause, List.foldl_attach]

/-- errors.go `Error()`: default field order, stack printed if enabled. -/
def Error.ErrorStr (cfg : Config) (e : Error) : String :=
  errToString cfg e true []

/-- errors.go `ErrorNoTrace()`. -/
def Error.ErrorNoTraceStr (cfg : Config) (e : Error) : String :=
  errToString cfg e false []

/-- errors.go `FormatError(printStack, fieldOrder...)`. -/
def Error.FormatErrorStr (cfg : Config) (e : Error) (printStack : Bool)
    (fieldOrder : List String) : String :=
  errToString cfg e printStack fieldOrder

/-- util.go `toString`: `""` for nil, the string itself for strings,
`fmt.Sprint` otherwise. -/
def goToString (cfg : Config) : Val → String
  | .vnil => ""
  | .str s => s
  | v => sprint cfg v

/-- orderedMap `Set`: upsert — replace the value in place at the key's
position if present, else append a new trailing entry. -/
def omSet (a : List (String × Val)) (key : String) (v : Val) :
    List (String × Val) :=
  match a with
  | [] => [(key, v)]
  | (k', v') :: rest =>
    if k' = key then (k', v) :: rest else (k', v') :: omSet rest key v

/-- orderedMap `Append`: alternating key/value tokens, each pair upserted
via `Set` with the key stringified; a trailing key with no value is stored
with the `"<missing>"` sentinel. -/
def omAppend (cfg : Config) (a : List (String × Val)) :
    List Val → List (String × Val)
  | [] => a
  | [k] => omSet a (goToString cfg k) (.str "<missing>")
  | k :: v :: rest => omAppend cfg (omSet a (goToString cfg k) v) rest

namespace Error

/-- Replace the field store. -/
def setFields : Error → List (String × Val) → Error
  | .mk o k dk c _ s i u, f => .mk o k dk c f s i u

/-- errors.go `WithOp`: sets the op if non-empty. -/
def WithOp (e : Error) (op : String) : Error :=
  if op ≠ "" then
    match e with
    | .mk _ k dk c f s i u => .mk op k dk c f s i u
  else e

/-- errors.go `WithKind`: sets the kind if non-empty. -/
def WithKind (e : Error) (kind : String) : Error :=
  if kind ≠ "" then
    match e with
    | .mk o _ dk c f s i u => .mk o kind dk c f s i u
  else e

/-- errors.go `WithDefaultKind`. -/
def WithDefaultKind (e : Error) (kind : String) : Error :=
  match e with
  | .mk o k _ c f s i u => .mk o k kind c f s i u

/-- errors.go `WithCause`: sets the cause if the error value is non-nil (a
nil `error` interface never reaches this point in the embedding, because a
typed `GoErr` value is always non-nil). -/
def WithCause (e : Error) (ge : GoErr) : Error :=
  match e with
  | .mk o k dk _ f s i u => .mk o k dk (some ge) f s i u

end Error

/-- The body of the argument loop in errors.go `With`: `Kind`,
`DefaultKind` and `error` typed arguments are dispatched without consuming
a value; `"op"`/`"kind"`/`"cause"` keys (when a value follows) are routed
to the dedicated setters; everything else is appended to the field store,
a trailing key without value by a single-argument `Append`. -/
def withLoop (cfg : Config) : Error → List Val → Error
  | e, [] => e
  | e, key :: rest =>
    match key with
    | .vnil => withLoop cfg e rest
    | .kindV k => withLoop cfg (e.WithKind k) rest
    | .dkindV k => withLoop cfg (e.WithDefaultKind k) rest
    | .errV ge => withLoop cfg (e.WithCause ge) rest
    | _ =>
      match rest with
      | val :: rest2 =>
        match key with
        | .str "op" =>
          withLoop cfg
            (match val with
             | .str s => e.WithOp s
             | _ => e) rest2
        | .str "kind" =>
          withLoop cfg
            (e.WithKind
              (match val with
               | .kindV k => k
               | _ => goToString cfg val)) rest2
        | .str "cause" =>
          match val with
          | .vnil => withLoop cfg e rest2
          | .errV ge => withLoop cfg (e.WithCause ge) rest2
          | _ => withLoop cfg (e.WithCause (.opaqueE (goToString cfg val))) rest2
        | _ =>
          withLoop cfg (e.setFields (omAppend cfg e.fields [key, val])) rest2
      | [] => e.setFields (omAppend cfg e.fields [key])

/-- The slice-flattening idiom shared by `With` and `NoTrace`: a single
argument that is itself an `[]interface{}` is treated as the argument
list. -/
def flattenArgs : List Val → List Val
  | [.slice s] => s
  | args => args

/-- errors.go `With`: a single `[]interface{}` argument is flattened into
the argument list, then the loop processes the arguments. -/
def Error.With (cfg : Config) (e : Error) (args : List Val) : Error :=
  let args := flattenArgs args
  if args.isEmpty then e else withLoop cfg e args

/-- errors.go `NoTrace`: flattens a single `[]interface{}` argument, uses a
leading string argument as the op, and hands the rest to `With`. -/
def NoTrace (cfg : Config) (args : List Val) : Error :=
  let args := flattenArgs args
  match args with
  | .str s :: rest => (Error.zero.WithOp s).With cfg rest
  | _ => Error.zero.With cfg args

/-- errors.go `E`: `NoTrace` plus `populateStack` when capture is enabled;
the frames recorded by the runtime at the call site are a parameter of the
embedding. -/
def E (cfg : Config) (args : List Val) (frames : List Frame) : Error :=
  let e := NoTrace cfg args
  if cfg.populateStacktrace then
    match e with
    | .mk o k dk c f _ i u => .mk o k dk c f (some frames) i u
  else e

/-! ## JSON marshalling (errors.go `MarshalJSON` / `marshalFields`)

A JSON document is modelled structurally; an object's member list is in
document order. -/

inductive JSON : Type where
  | jstr (s : String)
  | jnum (n : Int)
  | jnull
  | jarr (xs : List JSON)
  | jobj (ms : List (String × JSON))

/-- Trim of the character set `"\n\t "` from both ends (`strings.Trim`). -/
def isTrimChar (c : Char) : Bool := c = '\n' || c = '\t' || c = ' '

def trimNTS (s : String) : String :=
  String.mk (((s.toList.dropWhile isTrimChar).reverse.dropWhile isTrimChar).reverse)

/-- errors.go `stacktraceToArray`: trim the blob, split on newlines, trim
each line. -/
def stacktraceToArray (s : String) : List String :=
  let s := trimNTS s
  if s = "" then []
  else (s.splitOn "\n").map trimNTS

mutual

/-- `json.Marshal` on an embedded value: strings/kinds marshal as JSON
strings, a structured `*Error` through its `MarshalJSON` (stack included),
an external error as the empty object (no exported fields), maps with
sorted keys. -/
def jsonOfVal (cfg : Config) : Val → JSON
  | .str s => .jstr s
  | .vint n => .jnum n
  | .vnum n => .jnum n
  | .kindV k => .jstr k
  | .dkindV k => .jstr k
  | .errV (.structured e) => .jobj (marshalMembers cfg e true)
  | .errV (.opaqueE _) => .jobj []
  | .slice vs => .jarr (vs.attach.map fun x => jsonOfVal cfg x.1)
  | .vmap ms =>
    .jobj (((ms.attach.map fun x => (x.1.1, jsonOfVal cfg x.1.2)).insertionSort
      fun a b => a.1 ≤ b.1))
  | .vnil => .jnull
termination_by v => sizeOf v
decreasing_by
  · simp only [Val.errV.sizeOf_spec, GoErr.structured.sizeOf_spec]; omega
  · have := List.sizeOf_lt_of_mem x.2
    simp only [Val.slice.sizeOf_spec]
    omega
  · have h1 := List.sizeOf_lt_of_mem x.2
    have h2 : sizeOf x.1.2 < sizeOf x.1 := by
      obtain ⟨⟨a, b⟩, _⟩ := x
      simp only [Prod.mk.sizeOf_spec]
      omega
    simp only [Val.vmap.sizeOf_spec]
    omega

/-- The `kv` callback of `marshalFields` for one emission: the `"cause"`
key marshals a structured Error without its stack
(`cause.marshalFields(false)`) and converts any other error to its display
string (`convertForJSONMarshalling`); all other values marshal with
`json.Marshal`. -/
def marshalStep (cfg : Config) (opStr kindStr : String) :
    FieldEmit → (String × JSON)
  | .eop => ("op", .jstr opStr)
  | .ekind => ("kind", .jstr kindStr)
  | .efield k v =>
    if k = "cause" then
      (k, match v with
          | .errV (.structured c) => .jobj (marshalMembers cfg c false)
          | .errV (.opaqueE m) => .jstr m
          | w => jsonOfVal cfg w)
    else (k, jsonOfVal cfg v)
  | .ecause (.structured c) => ("cause", .jobj (marshalMembers cfg c false))
  | .ecause (.opaqueE m) => ("cause", .jstr m)
termination_by em => sizeOf em
decreasing_by
  all_goals
    simp only [FieldEmit.efield.sizeOf_spec, FieldEmit.ecause.sizeOf_spec,
      Val.errV.sizeOf_spec, GoErr.structured.sizeOf_spec]
  all_goals omega

/-- errors.go `marshalFields(marshalStack)`: the members produced by
`writeFields` under `DefaultFieldOrder`, followed (on the outermost error
only, when enabled and a stack is present) by the `stacktrace` member as a
string blob or an array of lines. -/
def marshalMembers (cfg : Config) (e : Error) (marshalStack : Bool) :
    List (String × JSON) :=
  let emits := writeFieldsSeq cfg e cfg.defaultFieldOrder
  let members := emits.attach.map fun x => marshalStep cfg e.op e.Kind x.1
  members ++
    (if marshalStack && cfg.marshalStacktrace && !e.ignoreStack && e.hasStack then
      let s := printStackStr cfg e
      [("stacktrace",
        if cfg.marshalStacktraceAsArray then .jarr ((stacktraceToArray s).map .jstr)
        else .jstr s)]
     else [])
termination_by sizeOf e
decreasing_by
  exact sizeOf_emit_lt x.2

end

/-- errors.go `MarshalJSON`: the error as a JSON object, stack included on
the outermost level. -/
def Error.MarshalJSONDoc (cfg : Config) (e : Error) : JSON :=
  .jobj (marshalMembers cfg e true)

/-! ## Order-preserving decoding (unmarshal.go / errors.go `UnmarshalJSON`)

`orderedKey.UnmarshalText` assigns each member name a strictly increasing
sequence number at the moment the decoder encounters it; the decoder is
modelled as visiting members in document order, threading the counter
depth-first (`decodeMembers`/`decodeValJ`).  The intermediate map's
arbitrary iteration order appears as an arbitrary permutation of the entry
list; `unmarshalFrom` sorts by sequence number and replays. -/

/-- unmarshal.go `orderedKey`: a member name with the sequence number its
`UnmarshalText` drew from the global counter. -/
structure OrderedKey where
  key : String
  pos : Nat
deriving DecidableEq, Repr

/-- unmarshal.go `valOrMap`: a member value decoded permissively as either
a nested object (`m`) or a plain value (`v`). -/
inductive ValOrMap : Type where
  | vm (entries : List (OrderedKey × ValOrMap))
  | vv (j : JSON)

mutual

/-- Decoding the members of an object in document order: each key draws
the next counter value, then its value is decoded (depth-first). -/
def decodeMembers (c : Nat) : List (String × JSON) →
    List (OrderedKey × ValOrMap) × Nat
  | [] => ([], c)
  | (k, j) :: rest =>
    let pos := c + 1
    let res := decodeValJ pos j
    let tail := decodeMembers res.2 rest
    ((⟨k, pos⟩, res.1) :: tail.1, tail.2)

/-- `valOrMap.UnmarshalJSON`: an object decodes into the map form,
anything else (including `null`, which leaves the map nil) into the plain
value form. -/
def decodeValJ (c : Nat) : JSON → ValOrMap × Nat
  | .jobj ms => let res := decodeMembers c ms; (.vm res.1, res.2)
  | j => (.vv j, c)

end

/-- `json.Unmarshal` of a JSON value into `interface{}`: objects become
generic maps, arrays slices. -/
def valToGo : JSON → Val
  | .jstr s => .str s
  | .jnum n => .vnum (fround53 n)
  | .jnull => .vnil
  | .jarr xs => .slice (xs.attach.map fun x => valToGo x.1)
  | .jobj ms => .vmap (ms.attach.map fun x => (x.1.1, valToGo x.1.2))
decreasing_by
  · have := List.sizeOf_lt_of_mem x.2
    simp only [JSON.jarr.sizeOf_spec]
    omega
  · have h1 := List.sizeOf_lt_of_mem x.2
    have h2 : sizeOf x.1.2 < sizeOf x.1 := by
      obtain ⟨⟨a, b⟩, _⟩ := x
      simp only [Prod.mk.sizeOf_spec]
      omega
    simp only [JSON.jobj.sizeOf_spec]
    omega

/-- unmarshal.go `ordereKeys` sorting (`sort.Sort` by `pos`). -/
def sortEntries (entries : List (OrderedKey × ValOrMap)) :
    List (OrderedKey × ValOrMap) :=
  entries.insertionSort fun a b => a.1.pos ≤ b.1.pos

/-- The lines joined when a decoded `stacktrace` member is an array:
`"\t"` before every line, `"\n"` between lines. -/
def joinStackLines (cfg : Config) (lines : List Val) : String :=
  lines.foldl
    (fun sb line =>
      (if sb.length > 0 then sb ++ "\n" else sb) ++ "\t" ++ goToString cfg line)
    ""

/-- Set `unmarshalledStacktrace`. -/
def Error.setUms : Error → String → Error
  | .mk o k dk c f s i _, u => .mk o k dk c f s i u

mutual

/-- `valOrMap.Get`: a non-nil map becomes a structured Error decoded from
its entries; anything else is the plain decoded value. -/
def vomGet (cfg : Config) : ValOrMap → Val
  | .vm entries => .errV (.structured (unmarshalInto cfg Error.zero entries))
  | .vv j => valToGo j
termination_by vom => 2 * sizeOf vom

/-- errors.go `unmarshalFrom`: collect the keys, sort them by sequence
number, and replay the entries into the receiver. -/
def unmarshalInto (cfg : Config) (e : Error)
    (entries : List (OrderedKey × ValOrMap)) : Error :=
  replay cfg e (sortEntries entries)
termination_by 2 * sizeOf entries + 1
decreasing_by
  have : sizeOf (sortEntries entries) = sizeOf entries :=
    (List.perm_insertionSort _ entries).sizeOf_eq_sizeOf
  omega

/-- The replay loop of `unmarshalFrom`: a `stacktrace` member sets the
textual snapshot (joining array elements), every other member goes through
`With(key, value)`. -/
def replay (cfg : Config) (e : Error) :
    List (OrderedKey × ValOrMap) → Error
  | [] => e
  | (ok, vom) :: rest =>
    let val := vomGet cfg vom
    if ok.key = "stacktrace" then
      let e' := match val with
        | .slice lines => e.setUms (joinStackLines cfg lines)
        | _ => e.setUms (goToString cfg val)
      replay cfg e' rest
    else replay cfg (e.With cfg [.str ok.key, val]) rest
termination_by l => 2 * sizeOf l
decreasing_by
  · simp only [List.cons.sizeOf_spec, Prod.mk.sizeOf_spec]; omega
  · simp only [List.cons.sizeOf_spec]; omega
  · simp only [List.cons.sizeOf_spec]; omega

end

/-- errors.go `UnmarshalJSON` on a well-formed document: a JSON object
decodes through the ordered-key map (the counter starts at an arbitrary
value `c`); anything else is a decode error.  (`json.Unmarshal` of `null`
into a map leaves it nil and succeeds without entries.) -/
def Error.UnmarshalJSONDoc (cfg : Config) (e : Error) (j : JSON) (c : Nat) :
    Option Error :=
  match j with
  | .jobj ms => some (unmarshalInto cfg e (decodeMembers c ms).1)
  | .jnull => some e
  | _ => none

/-! ## Claims -/

/-- The default configuration (all toggles at their package defaults). -/
def dcfg : Config := {}

/-- Concrete frames for the stack-coalescing statements. -/
def fA : Frame := ⟨1, "a.go", 1, "pkg.fa", 10, 100, "fa"⟩

def fB : Frame := ⟨2, "b.go", 2, "pkg.fb", 20, 200, "fb"⟩

def fS1 : Frame := ⟨3, "s.go", 3, "pkg.s1", 30, 300, "s1"⟩

def fS2 : Frame := ⟨4, "s.go", 4, "pkg.s2", 31, 301, "s2"⟩

def fS3 : Frame := ⟨5, "s.go", 5, "pkg.s3", 32, 302, "s3"⟩

/-- C5 counterexample: `combineCallStacks` keeps the *entire outer* trace
and the non-shared *leading frames of the inner* trace — not, as claimed,
the non-shared leading frames of the outer followed by the entire inner
trace.  With outer `[fA, fS1, fS2, fS3]` and inner `[fB, fS1, fS2, fS3]`
(3 equivalent trailing frames), the merge puts `fB` (inner-unique) first,
not `fA`. -/
theorem C5_counterexample :
    combineCallStacks [fA, fS1, fS2, fS3] [fB, fS1, fS2, fS3]
      = [fB, fA, fS1, fS2, fS3]
    ∧ combineCallStacks [fA, fS1, fS2, fS3] [fB, fS1, fS2, fS3]
      ≠ [fA] ++ [fB, fS1, fS2, fS3] := by
  decide

theorem eqRunRev_zero {A B : List Frame}
    (hlast : ∀ a b, A.getLast? = some a → B.getLast? = some b →
      equivalent a b = false) :
    eqRunRev A.reverse B.reverse = 0 := by
  cases hA : A.reverse with
  | nil => rfl
  | cons a as =>
    cases hB : B.reverse with
    | nil => rfl
    | cons b bs =>
      have ha : A.getLast? = some a := by
        rw [List.getLast?_eq_head?_reverse, hA]
        rfl
      have hb : B.getLast? = some b := by
        rw [List.getLast?_eq_head?_reverse, hB]
        rfl
      unfold eqRunRev
      rw [hlast a b ha hb]
      simp

/-- C5 (amended): for traces whose last 3 frames are pairwise equivalent
(and whose unique parts do not extend the common run), the merged trace is
the non-shared leading frames of the *inner* trace followed by the *entire
outer* trace, and its length is `len(outer_unique) + len(inner)` — no
trailing frames are duplicated. -/
theorem C5_coalesce_amended (A B : List Frame) (s1 s2 s3 t1 t2 t3 : Frame)
    (h1 : equivalent s1 t1 = true) (h2 : equivalent s2 t2 = true)
    (h3 : equivalent s3 t3 = true)
    (hlast : ∀ a b, A.getLast? = some a → B.getLast? = some b →
      equivalent a b = false) :
    combineCallStacks (A ++ [s1, s2, s3]) (B ++ [t1, t2, t3])
      = B ++ (A ++ [s1, s2, s3])
    ∧ (combineCallStacks (A ++ [s1, s2, s3]) (B ++ [t1, t2, t3])).length
      = A.length + (B ++ [t1, t2, t3]).length := by
  have hrun : eqRunRev (A ++ [s1, s2, s3]).reverse (B ++ [t1, t2, t3]).reverse
      = 3 := by
    rw [List.reverse_append, List.reverse_append]
    simp only [List.reverse_cons, List.reverse_nil, List.nil_append,
      List.cons_append, List.append_assoc]
    unfold eqRunRev
    rw [h3]
    unfold eqRunRev
    rw [h2]
    unfold eqRunRev
    rw [h1]
    rw [eqRunRev_zero hlast]
    simp
  have hne1 : A ++ [s1, s2, s3] ≠ [] := by simp
  have hne2 : B ++ [t1, t2, t3] ≠ [] := by simp
  have hmain : combineCallStacks (A ++ [s1, s2, s3]) (B ++ [t1, t2, t3])
      = B ++ (A ++ [s1, s2, s3]) := by
    unfold combineCallStacks
    rw [if_neg hne1, if_neg hne2]
    simp only [hrun]
    have hlen : (B ++ [t1, t2, t3]).length - 3 = B.length := by
      simp
    rw [hlen]
    congr 1
    rw [List.take_append_of_le_length (by simp)]
    simp
  refine ⟨hmain, ?_⟩
  rw [hmain]
  simp
  omega

/-- C5 witness. -/
theorem C5_coalesce_amended_witness :
    combineCallStacks ([fA] ++ [fS1, fS2, fS3]) ([fB] ++ [fS1, fS2, fS3])
      = [fB] ++ ([fA] ++ [fS1, fS2, fS3])
    ∧ (combineCallStacks ([fA] ++ [fS1, fS2, fS3]) ([fB] ++ [fS1, fS2, fS3])).length
      = [fA].length + ([fB] ++ [fS1, fS2, fS3]).length :=
  C5_coalesce_amended [fA] [fB] fS1 fS2 fS3 fS1 fS2 fS3
    (by decide) (by decide) (by decide)
    (fun a b ha hb => by
      simp at ha hb
      subst ha
      subst hb
      decide)

theorem omAppend_odd_aux (cfg : Config) (a : List (String × Val))
    (kvs : List Val) (k : Val) (h : kvs.length % 2 = 0) :
    omAppend cfg a (kvs ++ [k])
      = omSet (omAppend cfg a kvs) (goToString cfg k) (.str "<missing>") := by
  match kvs, h with
  | [], _ => rfl
  | [x], h => simp at h
  | x :: y :: t2, h =>
    simp only [List.cons_append]
    rw [omAppend, omAppend]
    exact omAppend_odd_aux cfg _ t2 k (by simp at h; omega)
termination_by kvs.length

/-- C6: `Append` with an odd number of tokens stores all complete leading
pairs normally and the trailing key with the `"<missing>"` sentinel; in
particular `Append("single")` stores `("single", "<missing>")`. -/
theorem C6_append_odd (cfg : Config) (a : List (String × Val))
    (kvs : List Val) (k : Val) (h : kvs.length % 2 = 0) :
    omAppend cfg a (kvs ++ [k])
      = omSet (omAppend cfg a kvs) (goToString cfg k) (.str "<missing>") :=
  omAppend_odd_aux cfg a kvs k h

/-- C6 witness: `Append("single")`. -/
theorem C6_append_odd_witness :
    ([] : List Val).length % 2 = 0
    ∧ omAppend dcfg [] ([] ++ [Val.str "single"])
      = omSet (omAppend dcfg [] []) (goToString dcfg (.str "single"))
        (.str "<missing>")
    ∧ omAppend dcfg [] [Val.str "single"] = [("single", .str "<missing>")] :=
  ⟨rfl, C6_append_odd dcfg [] [] (.str "single") rfl, rfl⟩

/-- C7 counterexample: `Append` with an already-present key does *not*
create a coexisting duplicate entry — it delegates to `Set`, which
replaces the value in place, so the store holds a single entry for the
key. -/
theorem C7_counterexample :
    omAppend dcfg (omAppend dcfg [] [.str "k", .str "v1"]) [.str "k", .str "v2"]
      = [("k", .str "v2")]
    ∧ (omAppend dcfg (omAppend dcfg [] [.str "k", .str "v1"])
        [.str "k", .str "v2"]).length ≠ 2 := by
  refine ⟨rfl, ?_⟩
  decide

/-- C7 (amended): explicit `Set` with an existing key replaces the value in
place without moving the entry, and `Append` delegates each pair to `Set`,
so it upserts as well: appending an existing key leaves a single entry for
it at its original position, carrying the new value. -/
theorem C7_set_append_upsert (cfg : Config) (pre post : List (String × Val))
    (k : String) (v v' : Val) (hpre : ∀ p ∈ pre, p.1 ≠ k) :
    omSet (pre ++ (k, v) :: post) k v' = pre ++ (k, v') :: post
    ∧ omAppend cfg (pre ++ (k, v) :: post) [.str k, v']
      = pre ++ (k, v') :: post := by
  have hset : omSet (pre ++ (k, v) :: post) k v' = pre ++ (k, v') :: post := by
    induction pre with
    | nil => simp [omSet]
    | cons p t ih =>
      obtain ⟨pk, pv⟩ := p
      have hne : pk ≠ k := by
        have := hpre (pk, pv) (by simp)
        simpa using this
      simp only [List.cons_append]
      rw [omSet]
      rw [if_neg hne]
      rw [ih (fun q hq => hpre q (by simp [hq]))]
  exact ⟨hset, by rw [omAppend, omAppend, goToString, hset]⟩

/-- The first explicit (non-empty) `kind` on the path from the error down
through structured causes, if any. -/
def findExplicitKind : Error → Option String
  | .mk _ kind _ cause _ _ _ _ =>
    if kind ≠ "" then some kind
    else match cause with
      | some (.structured c) => findExplicitKind c
      | _ => none

/-- The `defaultKind` of the deepest level (along structured causes) that
sets one. -/
def lastSetDefault : Error → Option String
  | .mk _ _ dk cause _ _ _ _ =>
    match cause with
    | some (.structured c) =>
      match lastSetDefault c with
      | some d => some d
      | none => if dk ≠ "" then some dk else none
    | _ => if dk ≠ "" then some dk else none

theorem findExplicitKind_ne_empty : ∀ {e : Error} {k : String},
    findExplicitKind e = some k → k ≠ "" := by
  intro e
  induction e using findExplicitKind.induct with
  | case1 o kind dk cause f s i u hk =>
    intro k h
    rw [findExplicitKind.eq_def] at h
    simp only [] at h
    rw [if_pos hk] at h
    cases h
    exact hk
  | case2 o kind dk f s i u hk c ih =>
    intro k h
    rw [findExplicitKind.eq_def] at h
    simp only [] at h
    rw [if_neg hk] at h
    exact ih h
  | case3 o kind dk f s i u hk x hx =>
    intro k h
    rw [findExplicitKind.eq_def] at h
    simp only [] at h
    rw [if_neg hk] at h
    rcases x with _ | ge
    · cases h
    · cases ge with
      | structured c => exact absurd rfl (hx c)
      | opaqueE m => cases h

theorem lastSetDefault_ne_empty : ∀ {e : Error} {d : String},
    lastSetDefault e = some d → d ≠ "" := by
  intro e
  induction e using lastSetDefault.induct with
  | case1 o kind dk f s i u c dd hlc ih =>
    intro d h
    rw [lastSetDefault.eq_def] at h
    simp only [hlc] at h
    cases h
    exact ih hlc
  | case2 o kind dk f s i u c hlc hdk ih =>
    intro d h
    rw [lastSetDefault.eq_def] at h
    simp only [hlc] at h
    rw [if_pos hdk] at h
    cases h
    exact hdk
  | case3 o kind dk f s i u c hlc hdk ih =>
    intro d h
    rw [lastSetDefault.eq_def] at h
    simp only [hlc] at h
    rw [if_neg hdk] at h
    cases h
  | case4 o kind dk f s i u x hx hdk =>
    intro d h
    rw [lastSetDefault.eq_def] at h
    simp only [] at h
    rw [if_pos hdk] at h
    cases h
    exact hdk
  | case5 o kind dk f s i u x hx hdk =>
    intro d h
    rw [lastSetDefault.eq_def] at h
    simp only [] at h
    rw [if_neg hdk] at h
    cases h

theorem findExplicit_effectiveKind : ∀ (e : Error) (dfl k : String),
    findExplicitKind e = some k → e.effectiveKind dfl = k := by
  intro e
  induction e using findExplicitKind.induct with
  | case1 o kind dk cause f s i u hk =>
    intro dfl k h
    rw [findExplicitKind.eq_def] at h
    simp only [] at h
    rw [if_pos hk] at h
    cases h
    rw [Error.effectiveKind, if_pos hk]
  | case2 o kind dk f s i u hk c ih =>
    intro dfl k h
    rw [findExplicitKind.eq_def] at h
    simp only [] at h
    rw [if_neg hk] at h
    rw [Error.effectiveKind, if_neg hk]
    simp only []
    rw [ih _ _ h, if_pos (findExplicitKind_ne_empty h)]
  | case3 o kind dk f s i u hk x hx =>
    intro dfl k h
    rw [findExplicitKind.eq_def] at h
    simp only [] at h
    rw [if_neg hk] at h
    rcases x with _ | ge
    · cases h
    · cases ge with
      | structured c => exact absurd rfl (hx c)
      | opaqueE m => cases h

theorem findExplicitKind_none_kind {o kind dk : String} {cause : Option GoErr}
    {f : List (String × Val)} {s : Option (List Frame)} {i : Bool} {u : String}
    (h : findExplicitKind (.mk o kind dk cause f s i u) = none) : kind = "" := by
  rw [findExplicitKind.eq_def] at h
  simp only [] at h
  by_cases hk : kind = ""
  · exact hk
  · rw [if_pos hk] at h
    cases h

theorem findExplicitKind_none_cause {o kind dk : String} {c : Error}
    {f : List (String × Val)} {s : Option (List Frame)} {i : Bool} {u : String}
    (h : findExplicitKind (.mk o kind dk (some (.structured c)) f s i u) = none) :
    findExplicitKind c = none := by
  have hk := findExplicitKind_none_kind h
  rw [findExplicitKind.eq_def] at h
  simp only [] at h
  rw [if_neg (by simp [hk])] at h
  exact h

theorem dflStep_ne_empty (dk dfl : String) :
    (if dk ≠ "" then dk else if dfl = "" then K_Other else dfl) ≠ "" := by
  by_cases hdk : dk = ""
  · rw [if_neg (by simp [hdk])]
    by_cases hdfl : dfl = ""
    · rw [if_pos hdfl]
      simp [K_Other]
    · rw [if_neg hdfl]
      exact hdfl
  · rw [if_pos hdk]
    exact hdk

theorem effectiveKind_no_explicit : ∀ (e : Error) (dfl : String),
    findExplicitKind e = none →
    e.effectiveKind dfl
      = (lastSetDefault e).getD (if dfl = "" then K_Other else dfl) := by
  intro e
  induction e using lastSetDefault.induct with
  | case1 o kind dk f s i u c dd hlc ih =>
    intro dfl h
    have hk := findExplicitKind_none_kind h
    have hc := findExplicitKind_none_cause h
    have hdd := lastSetDefault_ne_empty hlc
    rw [Error.effectiveKind]
    rw [if_neg (by simp [hk])]
    simp only []
    rw [ih _ hc, hlc]
    rw [lastSetDefault.eq_def]
    simp only [hlc]
    simp [hdd]
  | case2 o kind dk f s i u c hlc hdk ih =>
    intro dfl h
    have hk := findExplicitKind_none_kind h
    have hc := findExplicitKind_none_cause h
    rw [Error.effectiveKind]
    rw [if_neg (by simp [hk])]
    simp only []
    rw [ih _ hc, hlc]
    rw [lastSetDefault.eq_def]
    simp only [hlc]
    simp [hdk]
  | case3 o kind dk f s i u c hlc hdk ih =>
    intro dfl h
    have hk := findExplicitKind_none_kind h
    have hc := findExplicitKind_none_cause h
    rw [Error.effectiveKind]
    rw [if_neg (by simp [hk])]
    simp only []
    rw [ih _ hc, hlc]
    rw [lastSetDefault.eq_def]
    simp only [hlc]
    have hdk0 : dk = "" := by
      by_cases hq : dk = ""
      · exact hq
      · exact absurd hq hdk
    by_cases hdfl : dfl = ""
    · simp [hdk0, hdfl, K_Other]
    · simp [hdk0, hdfl]
  | case4 o kind dk f s i u x hx hdk =>
    intro dfl h
    have hk := findExplicitKind_none_kind h
    rw [Error.effectiveKind]
    rw [if_neg (by simp [hk])]
    simp only []
    rw [lastSetDefault.eq_def]
    simp only []
    rcases x with _ | ge
    · simp [hdk]
    · cases ge with
      | structured c => exact absurd rfl (hx c)
      | opaqueE m => simp [hdk]
  | case5 o kind dk f s i u x hx hdk =>
    intro dfl h
    have hk := findExplicitKind_none_kind h
    have hdk0 : dk = "" := by
      by_cases hq : dk = ""
      · exact hq
      · exact absurd hq hdk
    rw [Error.effectiveKind]
    rw [if_neg (by simp [hk])]
    simp only []
    rw [lastSetDefault.eq_def]
    simp only []
    rcases x with _ | ge
    · simp [hdk0]
    · cases ge with
      | structured c => exact absurd rfl (hx c)
      | opaqueE m => simp [hdk0]

/-- C7 witness. -/
theorem C7_set_append_upsert_witness :
    omSet ([("a", Val.str "w")] ++ ("k", Val.str "v") :: []) "k" (.str "v2")
      = [("a", Val.str "w")] ++ ("k", Val.str "v2") :: []
    ∧ omAppend dcfg ([("a", Val.str "w")] ++ ("k", Val.str "v") :: [])
        [.str "k", .str "v2"]
      = [("a", Val.str "w")] ++ ("k", Val.str "v2") :: [] :=
  C7_set_append_upsert dcfg [("a", .str "w")] [] "k" (.str "v") (.str "v2")
    (by intro p hp; simp at hp; simp [hp])

/-- C2: an explicit kind found at any depth of the chain of structured
causes takes precedence over every `defaultKind`; in particular
`E(DefaultKind.Invalid, E(K.Timeout)).Kind() = K.Timeout` and
`E(DefaultKind.Invalid, E()).Kind() = K.Invalid`. -/
theorem C2_explicit_kind_precedence :
    (∀ (e : Error) (dfl k : String), findExplicitKind e = some k →
      e.effectiveKind dfl = k)
    ∧ (NoTrace dcfg [.dkindV K_Invalid,
        .errV (.structured (NoTrace dcfg [.kindV K_Timeout]))]).Kind = K_Timeout
    ∧ (NoTrace dcfg [.dkindV K_Invalid,
        .errV (.structured (NoTrace dcfg []))]).Kind = K_Invalid :=
  ⟨findExplicit_effectiveKind, by rfl, by rfl⟩

/-- C2 witness. -/
theorem C2_explicit_kind_precedence_witness :
    findExplicitKind (NoTrace dcfg [.dkindV K_Invalid,
      .errV (.structured (NoTrace dcfg [.kindV K_Timeout]))]) = some K_Timeout
    ∧ (NoTrace dcfg [.dkindV K_Invalid,
        .errV (.structured (NoTrace dcfg [.kindV K_Timeout]))]).effectiveKind
        K_Other = K_Timeout :=
  ⟨by rfl, C2_explicit_kind_precedence.1 _ K_Other K_Timeout (by rfl)⟩

/-- C3 counterexample: with only default kinds on both levels, the *inner*
default wins — `E(DefaultKind.Invalid, E(DefaultKind.NotExist)).Kind()` is
`K.NotExist`, not the outer default `K.Invalid` demanded by the claim. -/
theorem C3_counterexample :
    (NoTrace dcfg [.dkindV K_Invalid,
      .errV (.structured (NoTrace dcfg [.dkindV K_NotExist]))]).Kind = K_NotExist
    ∧ K_NotExist ≠ K_Invalid :=
  ⟨by rfl, by decide⟩

/-- C3 (amended): when no explicit kind is set anywhere on the structured
chain, the resolver threads the default down — each level's `defaultKind`
*replaces* the inherited one — so the default of the *deepest* level that
sets one wins (not the outer level's); absent any default the initial
fallback (or `K.Other`) is returned.  A nested explicit kind still
overrides (C2). -/
theorem C3_default_kind_amended :
    (∀ (e : Error) (dfl : String), findExplicitKind e = none →
      e.effectiveKind dfl
        = (lastSetDefault e).getD (if dfl = "" then K_Other else dfl))
    ∧ (NoTrace dcfg [.dkindV K_Invalid,
        .errV (.structured (NoTrace dcfg [.dkindV K_NotExist]))]).Kind
      = K_NotExist :=
  ⟨effectiveKind_no_explicit, by rfl⟩

/-- C3 witness. -/
theorem C3_default_kind_amended_witness :
    findExplicitKind (NoTrace dcfg [.dkindV K_Invalid,
      .errV (.structured (NoTrace dcfg [.dkindV K_NotExist]))]) = none
    ∧ (NoTrace dcfg [.dkindV K_Invalid,
        .errV (.structured (NoTrace dcfg [.dkindV K_NotExist]))]).effectiveKind
        K_Other
      = (lastSetDefault (NoTrace dcfg [.dkindV K_Invalid,
          .errV (.structured (NoTrace dcfg [.dkindV K_NotExist]))])).getD
          (if K_Other = "" then K_Other else K_Other) :=
  ⟨by rfl, C3_default_kind_amended.1 _ K_Other (by rfl)⟩

/-- C10 counterexample: `E(args)` and `E(args...)` differ when `args` is a
slice whose single element is itself a slice: the flattening is applied
once more on one path than on the other, so for
`args = [[]interface{}{"x"}]` the variadic call yields op `"x"` while the
single-argument call stores `"x"` as a field key with the missing-value
sentinel. -/
theorem C10_counterexample :
    (NoTrace dcfg [.slice [.slice [.str "x"]]]).op = ""
    ∧ (NoTrace dcfg [.slice [.str "x"]]).op = "x"
    ∧ (NoTrace dcfg [.slice [.slice [.str "x"]]]).fields
        = [("x", .str "<missing>")]
    ∧ (NoTrace dcfg [.slice [.str "x"]]).fields = []
    ∧ NoTrace dcfg [.slice [.slice [.str "x"]]] ≠ NoTrace dcfg [.slice [.str "x"]] := by
  refine ⟨rfl, rfl, rfl, rfl, ?_⟩
  intro hcontra
  have h1 : (NoTrace dcfg [.slice [.slice [.str "x"]]]).op
      = (NoTrace dcfg [.slice [.str "x"]]).op := by rw [hcontra]
  simp only [show (NoTrace dcfg [.slice [.slice [.str "x"]]]).op = "" from rfl,
    show (NoTrace dcfg [.slice [.str "x"]]).op = "x" from rfl] at h1
  exact absurd h1 (by decide)

theorem flattenArgs_eq_self {args : List Val}
    (h : ∀ s, args ≠ [Val.slice s]) : flattenArgs args = args := by
  cases args with
  | nil => rfl
  | cons a t =>
    cases t with
    | cons b t2 => cases a <;> rfl
    | nil =>
      cases a with
      | slice s => exact absurd rfl (h s)
      | str s => rfl
      | vint n => rfl
      | vnum n => rfl
      | kindV k => rfl
      | dkindV k => rfl
      | errV ge => rfl
      | vmap ms => rfl
      | vnil => rfl

/-- C10 (amended): a single argument that is itself a slice is flattened
and its elements are treated as the argument list, so
`E(args) = E(args...)`, `NoTrace(args) = NoTrace(args...)` and
`With(args) = With(args...)` — provided `args` does not itself consist of
exactly one slice element (in that case the single-argument call flattens
twice). -/
theorem C10_single_slice_flattening (cfg : Config) (args : List Val)
    (h : ∀ s, args ≠ [Val.slice s]) :
    NoTrace cfg [.slice args] = NoTrace cfg args
    ∧ (∀ e : Error, e.With cfg [.slice args] = e.With cfg args)
    ∧ (∀ frames : List Frame, E cfg [.slice args] frames = E cfg args frames) := by
  have hfl : flattenArgs args = args := flattenArgs_eq_self h
  have hfl2 : flattenArgs [Val.slice args] = args := rfl
  have hnt : NoTrace cfg [.slice args] = NoTrace cfg args := by
    rw [NoTrace, NoTrace, hfl, hfl2]
  refine ⟨hnt, ?_, ?_⟩
  · intro e
    rw [Error.With, Error.With, hfl, hfl2]
  · intro frames
    rw [E, E, hnt]

/-- C10 witness. -/
theorem C10_single_slice_flattening_witness :
    NoTrace dcfg [.slice [.str "op1", .kindV K_IO]]
      = NoTrace dcfg [.str "op1", .kindV K_IO]
    ∧ (∀ e : Error, e.With dcfg [.slice [.str "op1", .kindV K_IO]]
        = e.With dcfg [.str "op1", .kindV K_IO])
    ∧ (∀ frames : List Frame, E dcfg [.slice [.str "op1", .kindV K_IO]] frames
        = E dcfg [.str "op1", .kindV K_IO] frames) :=
  C10_single_slice_flattening dcfg [.str "op1", .kindV K_IO]
    (fun s => by simp)

/-- C9: the code contradicts the `DefaultFieldOrder` documentation
("cause will be printed last (even after all trailing fields)").  With the
field-order policy `["", "k1"]` — which does not name `"cause"` — the
wildcard group (including the cause) is emitted when `""` is reached, and
the trailing explicit key `k1` is rendered *after* the cause.  This theorem
evaluates the code at the failing input: the cause is not last. -/
theorem C9_cause_not_last_codebug :
    Error.FormatErrorStr dcfg
      (NoTrace dcfg [.str "op1", .errV (.opaqueE "EOF"), .str "k1", .str "v1"])
      false ["", "k1"]
      = "op [op1] kind [unclassified error] cause [EOF] k1 [v1]"
    ∧ Error.FormatErrorStr dcfg
      (NoTrace dcfg [.str "op1", .errV (.opaqueE "EOF"), .str "k1", .str "v1"])
      false ["", "k1"]
      ≠ "op [op1] kind [unclassified error] k1 [v1] cause [EOF]" := by
  have heval : Error.FormatErrorStr dcfg
      (NoTrace dcfg [.str "op1", .errV (.opaqueE "EOF"), .str "k1", .str "v1"])
      false ["", "k1"]
      = "op [op1] kind [unclassified error] cause [EOF] k1 [v1]" := by
    simp [dcfg, Error.FormatErrorStr, errToString_eq, NoTrace, flattenArgs,
      Error.With, withLoop, omAppend, omSet, goToString, Error.WithOp,
      Error.WithKind, Error.WithCause, Error.zero, writeFieldsSeq,
      writeFieldsGo, othersSeq, unreferenced, Error.fieldEmit, Error.Kind,
      Error.effectiveKind, K_Other, Error.fields, Error.cause, Error.op,
      Error.kind, Error.hasStack, Error.ignoreStack, renderStep, writeKV,
      padApp, sprint, sprintErr, Error.isZero, omGet, Error.setFields,
      causeRof]
  refine ⟨heval, ?_⟩
  rw [heval]
  decide

/-! Projection lemmas for the setters. -/

@[simp] theorem WithOp_op (e : Error) (x : String) :
    (Error.WithOp e x).op = if x ≠ "" then x else e.op := by cases e; rw [Error.WithOp]; split <;> simp [Error.op]

@[simp] theorem WithOp_kind (e : Error) (x : String) :
    (Error.WithOp e x).kind = e.kind := by cases e; rw [Error.WithOp]; split <;> rfl

@[simp] theorem WithOp_defaultKind (e : Error) (x : String) :
    (Error.WithOp e x).defaultKind = e.defaultKind := by cases e; rw [Error.WithOp]; split <;> rfl

@[simp] theorem WithOp_cause (e : Error) (x : String) :
    (Error.WithOp e x).cause = e.cause := by cases e; rw [Error.WithOp]; split <;> rfl

@[simp] theorem WithOp_fields (e : Error) (x : String) :
    (Error.WithOp e x).fields = e.fields := by cases e; rw [Error.WithOp]; split <;> rfl

@[simp] theorem WithOp_stk (e : Error) (x : String) :
    (Error.WithOp e x).stk = e.stk := by cases e; rw [Error.WithOp]; split <;> rfl

@[simp] theorem WithOp_ignoreStack (e : Error) (x : String) :
    (Error.WithOp e x).ignoreStack = e.ignoreStack := by cases e; rw [Error.WithOp]; split <;> rfl

@[simp] theorem WithOp_unmarshalledStacktrace (e : Error) (x : String) :
    (Error.WithOp e x).unmarshalledStacktrace = e.unmarshalledStacktrace := by cases e; rw [Error.WithOp]; split <;> rfl

@[simp] theorem WithKind_op (e : Error) (x : String) :
    (Error.WithKind e x).op = e.op := by cases e; rw [Error.WithKind]; split <;> rfl

@[simp] theorem WithKind_kind (e : Error) (x : String) :
    (Error.WithKind e x).kind = if x ≠ "" then x else e.kind := by cases e; rw [Error.WithKind]; split <;> simp [Error.kind]

@[simp] theorem WithKind_defaultKind (e : Error) (x : String) :
    (Error.WithKind e x).defaultKind = e.defaultKind := by cases e; rw [Error.WithKind]; split <;> rfl

@[simp] theorem WithKind_cause (e : Error) (x : String) :
    (Error.WithKind e x).cause = e.cause := by cases e; rw [Error.WithKind]; split <;> rfl

@[simp] theorem WithKind_fields (e : Error) (x : String) :
    (Error.WithKind e x).fields = e.fields := by cases e; rw [Error.WithKind]; split <;> rfl

@[simp] theorem WithKind_stk (e : Error) (x : String) :
    (Error.WithKind e x).stk = e.stk := by cases e; rw [Error.WithKind]; split <;> rfl

@[simp] theorem WithKind_ignoreStack (e : Error) (x : String) :
    (Error.WithKind e x).ignoreStack = e.ignoreStack := by cases e; rw [Error.WithKind]; split <;> rfl

@[simp] theorem WithKind_unmarshalledStacktrace (e : Error) (x : String) :
    (Error.WithKind e x).unmarshalledStacktrace = e.unmarshalledStacktrace := by cases e; rw [Error.WithKind]; split <;> rfl

@[simp] theorem WithDefaultKind_op (e : Error) (x : String) :
    (Error.WithDefaultKind e x).op = e.op := by cases e; rw [Error.WithDefaultKind]; rfl

@[simp] theorem WithDefaultKind_kind (e : Error) (x : String) :
    (Error.WithDefaultKind e x).kind = e.kind := by cases e; rw [Error.WithDefaultKind]; rfl

@[simp] theorem WithDefaultKind_defaultKind (e : Error) (x : String) :
    (Error.WithDefaultKind e x).defaultKind = x := by cases e; rw [Error.WithDefaultKind]; simp [Error.defaultKind]

@[simp] theorem WithDefaultKind_cause (e : Error) (x : String) :
    (Error.WithDefaultKind e x).cause = e.cause := by cases e; rw [Error.WithDefaultKind]; rfl

@[simp] theorem WithDefaultKind_fields (e : Error) (x : String) :
    (Error.WithDefaultKind e x).fields = e.fields := by cases e; rw [Error.WithDefaultKind]; rfl

@[simp] theorem WithDefaultKind_stk (e : Error) (x : String) :
    (Error.WithDefaultKind e x).stk = e.stk := by cases e; rw [Error.WithDefaultKind]; rfl

@[simp] theorem WithDefaultKind_ignoreStack (e : Error) (x : String) :
    (Error.WithDefaultKind e x).ignoreStack = e.ignoreStack := by cases e; rw [Error.WithDefaultKind]; rfl

@[simp] theorem WithDefaultKind_unmarshalledStacktrace (e : Error) (x : String) :
    (Error.WithDefaultKind e x).unmarshalledStacktrace = e.unmarshalledStacktrace := by cases e; rw [Error.WithDefaultKind]; rfl

@[simp] theorem WithCause_op (e : Error) (x : GoErr) :
    (Error.WithCause e x).op = e.op := by cases e; rw [Error.WithCause]; rfl

@[simp] theorem WithCause_kind (e : Error) (x : GoErr) :
    (Error.WithCause e x).kind = e.kind := by cases e; rw [Error.WithCause]; rfl

@[simp] theorem WithCause_defaultKind (e : Error) (x : GoErr) :
    (Error.WithCause e x).defaultKind = e.defaultKind := by cases e; rw [Error.WithCause]; rfl

@[simp] theorem WithCause_cause (e : Error) (x : GoErr) :
    (Error.WithCause e x).cause = some x := by cases e; rw [Error.WithCause]; simp [Error.cause]

@[simp] theorem WithCause_fields (e : Error) (x : GoErr) :
    (Error.WithCause e x).fields = e.fields := by cases e; rw [Error.WithCause]; rfl

@[simp] theorem WithCause_stk (e : Error) (x : GoErr) :
    (Error.WithCause e x).stk = e.stk := by cases e; rw [Error.WithCause]; rfl

@[simp] theorem WithCause_ignoreStack (e : Error) (x : GoErr) :
    (Error.WithCause e x).ignoreStack = e.ignoreStack := by cases e; rw [Error.WithCause]; rfl

@[simp] theorem WithCause_unmarshalledStacktrace (e : Error) (x : GoErr) :
    (Error.WithCause e x).unmarshalledStacktrace = e.unmarshalledStacktrace := by cases e; rw [Error.WithCause]; rfl

@[simp] theorem setFields_op (e : Error) (x : List (String × Val)) :
    (Error.setFields e x).op = e.op := by cases e; rw [Error.setFields]; rfl

@[simp] theorem setFields_kind (e : Error) (x : List (String × Val)) :
    (Error.setFields e x).kind = e.kind := by cases e; rw [Error.setFields]; rfl

@[simp] theorem setFields_defaultKind (e : Error) (x : List (String × Val)) :
    (Error.setFields e x).defaultKind = e.defaultKind := by cases e; rw [Error.setFields]; rfl

@[simp] theorem setFields_cause (e : Error) (x : List (String × Val)) :
    (Error.setFields e x).cause = e.cause := by cases e; rw [Error.setFields]; rfl

@[simp] theorem setFields_fields (e : Error) (x : List (String × Val)) :
    (Error.setFields e x).fields = x := by cases e; rw [Error.setFields]; simp [Error.fields]

@[simp] theorem setFields_stk (e : Error) (x : List (String × Val)) :
    (Error.setFields e x).stk = e.stk := by cases e; rw [Error.setFields]; rfl

@[simp] theorem setFields_ignoreStack (e : Error) (x : List (String × Val)) :
    (Error.setFields e x).ignoreStack = e.ignoreStack := by cases e; rw [Error.setFields]; rfl

@[simp] theorem setFields_unmarshalledStacktrace (e : Error) (x : List (String × Val)) :
    (Error.setFields e x).unmarshalledStacktrace = e.unmarshalledStacktrace := by cases e; rw [Error.setFields]; rfl

@[simp] theorem setUms_op (e : Error) (x : String) :
    (Error.setUms e x).op = e.op := by cases e; rw [Error.setUms]; rfl

@[simp] theorem setUms_kind (e : Error) (x : String) :
    (Error.setUms e x).kind = e.kind := by cases e; rw [Error.setUms]; rfl

@[simp] theorem setUms_defaultKind (e : Error) (x : String) :
    (Error.setUms e x).defaultKind = e.defaultKind := by cases e; rw [Error.setUms]; rfl

@[simp] theorem setUms_cause (e : Error) (x : String) :
    (Error.setUms e x).cause = e.cause := by cases e; rw [Error.setUms]; rfl

@[simp] theorem setUms_fields (e : Error) (x : String) :
    (Error.setUms e x).fields = e.fields := by cases e; rw [Error.setUms]; rfl

@[simp] theorem setUms_stk (e : Error) (x : String) :
    (Error.setUms e x).stk = e.stk := by cases e; rw [Error.setUms]; rfl

@[simp] theorem setUms_ignoreStack (e : Error) (x : String) :
    (Error.setUms e x).ignoreStack = e.ignoreStack := by cases e; rw [Error.setUms]; rfl

@[simp] theorem setUms_unmarshalledStacktrace (e : Error) (x : String) :
    (Error.setUms e x).unmarshalledStacktrace = x := by cases e; rw [Error.setUms]; simp [Error.unmarshalledStacktrace]

@[simp] theorem matchOpVal_ignoreStack (e : Error) (val : Val) :
    (match val with
     | Val.str s => e.WithOp s
     | _ => e).ignoreStack = e.ignoreStack := by
  cases val <;> simp

@[simp] theorem matchOpVal_stk (e : Error) (val : Val) :
    (match val with
     | Val.str s => e.WithOp s
     | _ => e).stk = e.stk := by
  cases val <;> simp

@[simp] theorem matchOpVal_ums (e : Error) (val : Val) :
    (match val with
     | Val.str s => e.WithOp s
     | _ => e).unmarshalledStacktrace = e.unmarshalledStacktrace := by
  cases val <;> simp

theorem withLoop_preserves (cfg : Config) (args : List Val) (e : Error) :
    (withLoop cfg e args).ignoreStack = e.ignoreStack
    ∧ (withLoop cfg e args).stk = e.stk
    ∧ (withLoop cfg e args).unmarshalledStacktrace = e.unmarshalledStacktrace := by
  rw [withLoop.eq_def]
  split
  all_goals try split
  all_goals try split
  all_goals try split
  all_goals try split
  all_goals
    first
    | exact ⟨by simp, by simp, by simp⟩
    | exact ⟨((withLoop_preserves cfg _ _).1).trans (by simp),
        ((withLoop_preserves cfg _ _).2.1).trans (by simp),
        ((withLoop_preserves cfg _ _).2.2).trans (by simp)⟩
termination_by args.length
decreasing_by
  all_goals first
  | omega
  | (simp_all; omega)
  | simp_all

theorem With_preserves (cfg : Config) (e : Error) (args : List Val) :
    (e.With cfg args).ignoreStack = e.ignoreStack
    ∧ (e.With cfg args).stk = e.stk
    ∧ (e.With cfg args).unmarshalledStacktrace = e.unmarshalledStacktrace := by
  rw [Error.With]
  split
  · exact ⟨rfl, rfl, rfl⟩
  · exact withLoop_preserves cfg _ e

theorem NoTrace_preserves (cfg : Config) (args : List Val) :
    (NoTrace cfg args).ignoreStack = false
    ∧ (NoTrace cfg args).stk = none
    ∧ (NoTrace cfg args).unmarshalledStacktrace = "" := by
  rw [NoTrace]
  split
  · rename_i s rest _
    have h := With_preserves cfg (Error.zero.WithOp s) rest
    simp only [h.1, h.2.1, h.2.2]
    simp [Error.zero]
    exact ⟨rfl, rfl, rfl⟩
  · rename_i hx
    have h := With_preserves cfg Error.zero (flattenArgs args)
    simp only [h.1, h.2.1, h.2.2]
    exact ⟨rfl, rfl, rfl⟩

theorem E_ignoreStack (cfg : Config) (args : List Val) (frames : List Frame) :
    (E cfg args frames).ignoreStack = false := by
  rw [E]
  split
  · have h := (NoTrace_preserves cfg args).1
    cases hnt : NoTrace cfg args with
    | mk o k dk c f s i u =>
      rw [hnt] at h
      simpa [Error.ignoreStack] using h
  · exact (NoTrace_preserves cfg args).1

theorem replay_preserves (cfg : Config) :
    ∀ (l : List (OrderedKey × ValOrMap)) (e : Error),
    (replay cfg e l).ignoreStack = e.ignoreStack
    ∧ (replay cfg e l).stk = e.stk := by
  intro l
  induction l with
  | nil =>
    intro e
    rw [replay]
    exact ⟨rfl, rfl⟩
  | cons p rest ih =>
    intro e
    obtain ⟨ok, vom⟩ := p
    rw [replay]
    simp only []
    split
    · have hm : ∀ v : Val,
          ((match v with
            | Val.slice lines => e.setUms (joinStackLines cfg lines)
            | _ => e.setUms (goToString cfg v)).ignoreStack = e.ignoreStack)
          ∧ ((match v with
            | Val.slice lines => e.setUms (joinStackLines cfg lines)
            | _ => e.setUms (goToString cfg v)).stk = e.stk) := by
        intro v
        cases v <;> simp
      have h1 := ih (match vomGet cfg vom with
        | Val.slice lines => e.setUms (joinStackLines cfg lines)
        | _ => e.setUms (goToString cfg (vomGet cfg vom)))
      constructor
      · rw [h1.1, (hm (vomGet cfg vom)).1]
      · rw [h1.2, (hm (vomGet cfg vom)).2]
    · have h1 := ih (e.With cfg [.str ok.key, vomGet cfg vom])
      have h2 := With_preserves cfg e [.str ok.key, vomGet cfg vom]
      exact ⟨h1.1.trans h2.1, h1.2.trans h2.2.1⟩

theorem unmarshalInto_preserves (cfg : Config) (e : Error)
    (entries : List (OrderedKey × ValOrMap)) :
    (unmarshalInto cfg e entries).ignoreStack = e.ignoreStack
    ∧ (unmarshalInto cfg e entries).stk = e.stk := by
  rw [unmarshalInto]
  exact replay_preserves cfg _ e

/-- C8 counterexample: an Error produced by JSON decoding has
`ignoreStack = false` — `UnmarshalJSON` never sets the flag, contradicting
"true exactly when the error was produced by decoding". -/
theorem C8_counterexample :
    (∀ d, Error.UnmarshalJSONDoc dcfg Error.zero (.jobj [("op", .jstr "x")]) 0
        = some d → d.ignoreStack = false)
    ∧ Error.UnmarshalJSONDoc dcfg Error.zero (.jobj [("op", .jstr "x")]) 0
        ≠ none := by
  constructor
  · intro d hd
    rw [Error.UnmarshalJSONDoc] at hd
    simp only [Option.some.injEq] at hd
    subst hd
    exact (unmarshalInto_preserves dcfg Error.zero _).1
  · rw [Error.UnmarshalJSONDoc]
    simp

/-- C8 (amended): `ignoreStack` is never set to true by the package — it is
false on every Error built by the constructors *and* on every Error
produced by JSON decoding (decoding stores the textual snapshot in
`unmarshalledStacktrace` instead and leaves the receiver's flag alone);
when the flag *is* true, the textual rendering and the JSON encoding omit
the stack trace even if one is present. -/
theorem C8_ignoreStack_amended :
    (∀ (cfg : Config) (args : List Val) (frames : List Frame),
      (E cfg args frames).ignoreStack = false)
    ∧ (∀ (cfg : Config) (e : Error) (entries : List (OrderedKey × ValOrMap)),
      (unmarshalInto cfg e entries).ignoreStack = e.ignoreStack)
    ∧ (∀ (cfg : Config) (e : Error) (ord : List String),
      e.ignoreStack = true →
      errToString cfg e true ord = errToString cfg e false ord)
    ∧ (∀ (cfg : Config) (e : Error), e.ignoreStack = true →
      marshalMembers cfg e true = marshalMembers cfg e false) := by
  refine ⟨E_ignoreStack, fun cfg e entries => (unmarshalInto_preserves cfg e entries).1,
    ?_, ?_⟩
  · intro cfg e ord h
    rw [errToString_eq, errToString_eq]
    simp [h]
  · intro cfg e h
    rw [marshalMembers, marshalMembers]
    simp [h]

/-- C8 witness. -/
theorem C8_ignoreStack_amended_witness :
    (E dcfg [.str "op1"] [fA]).ignoreStack = false
    ∧ (unmarshalInto dcfg Error.zero []).ignoreStack = Error.zero.ignoreStack
    ∧ ((Error.mk "x" "" "" none [] (some [fA]) true "snap").ignoreStack = true
      ∧ errToString dcfg (Error.mk "x" "" "" none [] (some [fA]) true "snap") true []
        = errToString dcfg (Error.mk "x" "" "" none [] (some [fA]) true "snap") false []) :=
  ⟨C8_ignoreStack_amended.1 dcfg [.str "op1"] [fA],
   C8_ignoreStack_amended.2.1 dcfg Error.zero [],
   rfl,
   C8_ignoreStack_amended.2.2.1 dcfg
     (Error.mk "x" "" "" none [] (some [fA]) true "snap") [] rfl⟩

theorem decodeMembers_spec :
    ∀ (c : Nat) (ms : List (String × JSON)),
      c ≤ (decodeMembers c ms).2
      ∧ (∀ p ∈ (decodeMembers c ms).1,
          c < p.1.pos ∧ p.1.pos ≤ (decodeMembers c ms).2)
      ∧ (decodeMembers c ms).1.Pairwise (fun a b => a.1.pos < b.1.pos) := by
  have main := decodeMembers.induct
    (fun c ms =>
      c ≤ (decodeMembers c ms).2
      ∧ (∀ p ∈ (decodeMembers c ms).1,
          c < p.1.pos ∧ p.1.pos ≤ (decodeMembers c ms).2)
      ∧ (decodeMembers c ms).1.Pairwise (fun a b => a.1.pos < b.1.pos))
    (fun c j => c ≤ (decodeValJ c j).2)
  apply main
  · intro c ms ih
    rw [decodeValJ]
    exact ih.1
  · intro c j hnj
    rw [decodeValJ.eq_def]
    cases j with
    | jobj ms => exact absurd rfl (hnj ms)
    | jstr s => simp
    | jnum n => simp
    | jnull => simp
    | jarr xs => simp
  · intro c
    rw [decodeMembers]
    exact ⟨Nat.le_refl _, fun p hp => absurd hp (by simp), by simp⟩
  · intro c k j rest pos res hval ihrest
    have hpos : pos = c + 1 := rfl
    have hres : res = decodeValJ (c + 1) j := rfl
    rw [hpos] at hval
    rw [hres] at ihrest
    rw [decodeMembers]
    simp only []
    have h1 : c + 1 ≤ (decodeValJ (c + 1) j).2 := hval
    have h2 : (decodeValJ (c + 1) j).2 ≤ (decodeMembers (decodeValJ (c + 1) j).2 rest).2 :=
      ihrest.1
    refine ⟨by omega, ?_, ?_⟩
    · intro p hp
      rcases List.mem_cons.mp hp with hp | hp
      · subst hp
        constructor
        · show c < c + 1
          omega
        · show c + 1 ≤ (decodeMembers (decodeValJ (c + 1) j).2 rest).2
          omega
      · have := ihrest.2.1 p hp
        constructor
        · omega
        · exact this.2
    · refine List.Pairwise.cons ?_ ihrest.2.2
      intro b hb
      have := ihrest.2.1 b hb
      show c + 1 < b.1.pos
      omega

theorem eq_of_perm_sorted_pos :
    ∀ (l1 l2 : List (OrderedKey × ValOrMap)),
    l1.Perm l2 →
    l1.Sorted (fun a b => a.1.pos ≤ b.1.pos) →
    l2.Sorted (fun a b => a.1.pos ≤ b.1.pos) →
    (l1.map (fun p => p.1.pos)).Nodup →
    l1 = l2 := by
  intro l1
  induction l1 with
  | nil =>
    intro l2 hp _ _ _
    exact List.Perm.nil_eq hp
  | cons a t1 ih =>
    intro l2 hp hs1 hs2 hnd
    cases l2 with
    | nil => exact absurd hp.symm (by simp)
    | cons b t2 =>
      have hab : a ∈ b :: t2 := hp.subset (List.mem_cons_self a t1)
      have hba : b ∈ a :: t1 := hp.symm.subset (List.mem_cons_self b t2)
      have hle1 : a.1.pos ≤ b.1.pos := by
        rcases List.mem_cons.mp hba with hb | hb
        · rw [hb]
        · exact (List.sorted_cons.mp hs1).1 b hb
      have hle2 : b.1.pos ≤ a.1.pos := by
        rcases List.mem_cons.mp hab with ha | ha
        · rw [ha]
        · exact (List.sorted_cons.mp hs2).1 a ha
      have hpos : a.1.pos = b.1.pos := Nat.le_antisymm hle1 hle2
      have hba' : b = a := by
        rcases List.mem_cons.mp hba with hb | hb
        · exact hb
        · exfalso
          simp only [List.map_cons, List.nodup_cons] at hnd
          exact hnd.1 (by
            rw [hpos]
            exact List.mem_map.mpr ⟨b, hb, rfl⟩)
      subst hba'
      have hp' : t1.Perm t2 := hp.cons_inv
      have := ih t2 hp' (List.sorted_cons.mp hs1).2 (List.sorted_cons.mp hs2).2
        (by simp only [List.map_cons, List.nodup_cons] at hnd; exact hnd.2)
      rw [this]

theorem sortEntries_sorted (l : List (OrderedKey × ValOrMap)) :
    (sortEntries l).Sorted (fun a b => a.1.pos ≤ b.1.pos) := by
  letI : IsTotal (OrderedKey × ValOrMap) (fun a b => a.1.pos ≤ b.1.pos) :=
    ⟨fun a b => Nat.le_total a.1.pos b.1.pos⟩
  letI : IsTrans (OrderedKey × ValOrMap) (fun a b => a.1.pos ≤ b.1.pos) :=
    ⟨fun a b c hab hbc => Nat.le_trans hab hbc⟩
  exact List.sorted_insertionSort _ l

/-- Sorting by sequence number recovers the unique document order: for any
permutation `l` of a position-strictly-increasing entry list `doc`,
`sortEntries l = doc`. -/
theorem sortEntries_of_perm {doc l : List (OrderedKey × ValOrMap)}
    (hp : l.Perm doc)
    (hs : doc.Pairwise (fun a b => a.1.pos < b.1.pos)) :
    sortEntries l = doc := by
  have hperm : (sortEntries l).Perm doc :=
    (List.perm_insertionSort _ l).trans hp
  have hsd : doc.Sorted (fun a b => a.1.pos ≤ b.1.pos) :=
    hs.imp (fun h => Nat.le_of_lt h)
  have hnd : ((sortEntries l).map (fun p => p.1.pos)).Nodup := by
    have hnodoc : (doc.map (fun p => p.1.pos)).Nodup := by
      have hpw : (doc.map fun p => p.1.pos).Pairwise (· < ·) :=
        hs.map (fun (p : OrderedKey × ValOrMap) => p.1.pos) (fun a b h => h)
      exact List.Pairwise.imp (fun h => Nat.ne_of_lt h) hpw
    exact ((hperm.map (fun p => p.1.pos)).nodup_iff).mpr hnodoc
  exact eq_of_perm_sorted_pos _ _ hperm (sortEntries_sorted l) hsd hnd

/-- C4: (a) decoding assigns each encountered key a strictly increasing
sequence number in document order (`decodeMembers` threads the counter so
positions increase strictly left to right); (b) since `unmarshalFrom` sorts
the decoded entries by sequence number before replaying them through the
upsert, the decoded Error is invariant under any permutation of the
intermediate map's entry list; (c) concretely, encoding an error with
fields a,b,c and decoding reconstructs exactly the field order a,b,c. -/
theorem C4_ordered_decode :
    (∀ (c : Nat) (ms : List (String × JSON)),
      (decodeMembers c ms).1.Pairwise (fun p q => p.1.pos < q.1.pos))
    ∧ (∀ (cfg : Config) (e : Error) (c : Nat) (ms : List (String × JSON))
        (l : List (OrderedKey × ValOrMap)),
        l.Perm (decodeMembers c ms).1 →
        unmarshalInto cfg e l = unmarshalInto cfg e (decodeMembers c ms).1)
    ∧ (Error.UnmarshalJSONDoc dcfg Error.zero
        (Error.MarshalJSONDoc dcfg (NoTrace dcfg
          [.str "op1", .str "a", .str "1", .str "b", .str "2",
           .str "c", .str "3"])) 0).map Error.fields
      = some [("a", Val.str "1"), ("b", Val.str "2"), ("c", Val.str "3")] := by
  refine ⟨fun c ms => (decodeMembers_spec c ms).2.2, ?_, ?_⟩
  · intro cfg e c ms l hperm
    rw [unmarshalInto, unmarshalInto,
      sortEntries_of_perm hperm (decodeMembers_spec c ms).2.2,
      sortEntries_of_perm (List.Perm.refl _) (decodeMembers_spec c ms).2.2]
  · have heabc : NoTrace dcfg
        [.str "op1", .str "a", .str "1", .str "b", .str "2",
         .str "c", .str "3"]
        = Error.mk "op1" "" "" none
            [("a", .str "1"), ("b", .str "2"), ("c", .str "3")] none false "" := rfl
    rw [heabc]
    have hm : Error.MarshalJSONDoc dcfg
        (Error.mk "op1" "" "" none
          [("a", .str "1"), ("b", .str "2"), ("c", .str "3")] none false "")
        = .jobj [("op", .jstr "op1"), ("kind", .jstr "unclassified error"),
                 ("a", .jstr "1"), ("b", .jstr "2"), ("c", .jstr "3")] := by
      rw [Error.MarshalJSONDoc, marshalMembers]
      have hemits : writeFieldsSeq dcfg
          (Error.mk "op1" "" "" none
            [("a", Val.str "1"), ("b", Val.str "2"), ("c", Val.str "3")]
            none false "")
          dcfg.defaultFieldOrder
          = [.eop, .ekind, .efield "a" (.str "1"), .efield "b" (.str "2"),
             .efield "c" (.str "3")] := rfl
      simp +decide [List.attach_map_coe, hemits, marshalStep, jsonOfVal,
        Error.hasStack, Error.op, Error.Kind, Error.effectiveKind, K_Other]
    rw [hm]
    have hdec : Error.UnmarshalJSONDoc dcfg Error.zero
        (JSON.jobj [("op", .jstr "op1"), ("kind", .jstr "unclassified error"),
                    ("a", .jstr "1"), ("b", .jstr "2"), ("c", .jstr "3")]) 0
        = some (unmarshalInto dcfg Error.zero
            (decodeMembers 0
              [("op", .jstr "op1"), ("kind", .jstr "unclassified error"),
               ("a", .jstr "1"), ("b", .jstr "2"), ("c", .jstr "3")]).1) := rfl
    rw [hdec]
    rw [unmarshalInto]
    have hsort : sortEntries
        (decodeMembers 0
          [("op", .jstr "op1"), ("kind", .jstr "unclassified error"),
           ("a", .jstr "1"), ("b", .jstr "2"), ("c", .jstr "3")]).1
        = [(⟨"op", 1⟩, .vv (.jstr "op1")),
           (⟨"kind", 2⟩, .vv (.jstr "unclassified error")),
           (⟨"a", 3⟩, .vv (.jstr "1")),
           (⟨"b", 4⟩, .vv (.jstr "2")),
           (⟨"c", 5⟩, .vv (.jstr "3"))] := rfl
    rw [hsort]
    simp +decide only [replay, vomGet, valToGo]
    rfl

/-- C4 witness: a concrete two-member document whose intermediate entry
list is presented in swapped (map-iteration) order still decodes to the
document-order result. -/
theorem C4_ordered_decode_witness :
    ([((⟨"b", 2⟩ : OrderedKey), ValOrMap.vv (.jstr "2")),
      ((⟨"a", 1⟩ : OrderedKey), ValOrMap.vv (.jstr "1"))].Perm
        (decodeMembers 0 [("a", .jstr "1"), ("b", .jstr "2")]).1)
    ∧ unmarshalInto dcfg Error.zero
        [(⟨"b", 2⟩, .vv (.jstr "2")), (⟨"a", 1⟩, .vv (.jstr "1"))]
      = unmarshalInto dcfg Error.zero
          (decodeMembers 0 [("a", .jstr "1"), ("b", .jstr "2")]).1 := by
  have hperm : [((⟨"b", 2⟩ : OrderedKey), ValOrMap.vv (.jstr "2")),
      ((⟨"a", 1⟩ : OrderedKey), ValOrMap.vv (.jstr "1"))].Perm
      (decodeMembers 0 [("a", .jstr "1"), ("b", .jstr "2")]).1 := by
    show List.Perm _ [((⟨"a", 1⟩ : OrderedKey), ValOrMap.vv (.jstr "1")),
      ((⟨"b", 2⟩ : OrderedKey), ValOrMap.vv (.jstr "2"))]
    exact List.Perm.swap _ _ _
  exact ⟨hperm,
    C4_ordered_decode.2.1 dcfg Error.zero 0
      [("a", .jstr "1"), ("b", .jstr "2")] _ hperm⟩

/-! ## Round trip of encode/decode/render (C1) -/

/-- A string-valued field: the only embedded values that round-trip through
`json.Marshal` / `json.Unmarshal` without change of representation.
Numbers do not: `json.Unmarshal` into `interface{}` yields `float64`, whose
`fmt.Sprint` rendering switches to e-notation from `1e6` on (`1000000`
marshals to `1000000` but renders as `1e+06` after decoding) and loses
precision beyond `2^53`. -/
def strVal : Val → Bool
  | .str _ => true
  | _ => false

/-- A field key that does not collide with the reserved member names
consumed structurally by `UnmarshalJSON`/`writeFields`. -/
def goodKey (k : String) : Bool :=
  !(k == "op" || k == "kind" || k == "cause" || k == "stacktrace")

/-- The well-behaved errors of the round-trip statement: every field has a
non-reserved key and a string value, keys are distinct, and every
structured cause is non-zero and recursively well-behaved.  (Number-valued
fields are excluded: they decode to `float64` and do not render
identically — see `strVal`.) -/
def Good : Error → Bool
  | e =>
    e.fields.all (fun p => goodKey p.1 && strVal p.2) &&
    decide ((e.fields.map Prod.fst).Nodup) &&
    (match h : e.cause with
     | some (.structured c) => !c.isZero && Good c
     | _ => true)
termination_by e => sizeOf e
decreasing_by
  exact sizeOf_cause_structured h

/-- The canonical shape of `Decode(Encode(e))`: same op and fields, the
rendered effective kind stored as the explicit kind, defaults and stack
dropped, the cause decoded recursively. -/
def decodedC (cfg : Config) : Error → Error
  | e =>
    .mk e.op e.Kind ""
      (match h : e.cause with
       | some (.structured c) => some (.structured (decodedC cfg c))
       | some (.opaqueE m) => some (.opaqueE m)
       | none => none)
      e.fields none false ""
termination_by e => sizeOf e
decreasing_by
  exact sizeOf_cause_structured h

theorem decodedC_op (cfg : Config) (e : Error) : (decodedC cfg e).op = e.op := by
  rw [decodedC]
  rfl

theorem decodedC_kind (cfg : Config) (e : Error) :
    (decodedC cfg e).kind = e.Kind := by
  rw [decodedC]
  rfl

theorem decodedC_fields (cfg : Config) (e : Error) :
    (decodedC cfg e).fields = e.fields := by
  rw [decodedC]
  rfl

theorem decodedC_cause_none {e : Error} (cfg : Config) (h : e.cause = none) :
    (decodedC cfg e).cause = none := by
  cases e with
  | mk o k dk c f s i u =>
    simp only [Error.cause] at h
    subst h
    rw [decodedC]
    rfl

theorem decodedC_cause_opaque {e : Error} {m : String} (cfg : Config)
    (h : e.cause = some (.opaqueE m)) :
    (decodedC cfg e).cause = some (.opaqueE m) := by
  cases e with
  | mk o k dk c f s i u =>
    simp only [Error.cause] at h
    subst h
    rw [decodedC]
    rfl

theorem decodedC_cause_structured {e c : Error} (cfg : Config)
    (h : e.cause = some (.structured c)) :
    (decodedC cfg e).cause = some (.structured (decodedC cfg c)) := by
  cases e with
  | mk o k dk c0 f s i u =>
    simp only [Error.cause] at h
    subst h
    rw [decodedC]
    rfl

/-- `Good` unpacked: the field conditions. -/
theorem good_fields {e : Error} (hg : Good e = true) :
    ∀ p ∈ e.fields, goodKey p.1 = true ∧ strVal p.2 = true := by
  rw [Good] at hg
  simp only [Bool.and_eq_true, List.all_eq_true] at hg
  intro p hp
  have := hg.1.1 p hp
  simpa [Bool.and_eq_true] using this

/-- `Good` unpacked: distinct keys. -/
theorem good_nodup {e : Error} (hg : Good e = true) :
    (e.fields.map Prod.fst).Nodup := by
  rw [Good] at hg
  simp only [Bool.and_eq_true, decide_eq_true_eq] at hg
  exact hg.1.2

/-- `Good` unpacked: a structured cause is non-zero and itself good. -/
theorem good_cause_structured {e c : Error} (hg : Good e = true)
    (h : e.cause = some (.structured c)) :
    c.isZero = false ∧ Good c = true := by
  rw [Good] at hg
  simp only [Bool.and_eq_true] at hg
  have := hg.2
  revert this
  split
  · rename_i c1 heq
    rw [h] at heq
    simp only [Option.some.injEq, GoErr.structured.injEq] at heq
    subst heq
    intro hz
    simp only [Bool.and_eq_true, Bool.not_eq_true'] at hz
    exact hz
  · rename_i heq
    exact absurd h (heq c)

/-- An explicitly set kind is the effective kind, whatever the inherited
default. -/
theorem effectiveKind_explicit (e : Error) (dfl : String) (h : e.kind ≠ "") :
    e.effectiveKind dfl = e.kind := by
  cases e with
  | mk o k dk c f s i u =>
    simp only [Error.kind] at h ⊢
    rw [Error.effectiveKind, if_pos h]

/-- The effective kind is never the empty string when the inherited default
is non-empty. -/
theorem effectiveKind_ne_empty (e : Error) (dfl : String) (hd : dfl ≠ "") :
    e.effectiveKind dfl ≠ "" := by
  cases hfe : findExplicitKind e with
  | some k =>
    rw [findExplicit_effectiveKind e dfl k hfe]
    exact findExplicitKind_ne_empty hfe
  | none =>
    rw [effectiveKind_no_explicit e dfl hfe]
    cases hls : lastSetDefault e with
    | some d =>
      simpa using lastSetDefault_ne_empty hls
    | none =>
      simp only [Option.getD_none]
      rw [if_neg hd]
      exact hd

/-- `Kind()` is never empty. -/
theorem Kind_ne_empty (e : Error) : e.Kind ≠ "" := by
  rw [Error.Kind]
  exact effectiveKind_ne_empty e K_Other (by simp [K_Other])

/-- An error with a non-empty kind is not the zero value. -/
theorem isZero_false_of_kind {e : Error} (h : e.kind ≠ "") :
    e.isZero = false := by
  cases e with
  | mk o k dk c f s i u =>
    simp only [Error.kind] at h
    simp [Error.isZero, Error.kind, h]

/-- `Set` with a fresh key appends a trailing entry. -/
theorem omSet_append {a : List (String × Val)} {k : String} {v : Val}
    (h : omGet a k = none) : omSet a k v = a ++ [(k, v)] := by
  induction a with
  | nil => rfl
  | cons p rest ih =>
    obtain ⟨k', v'⟩ := p
    rw [omGet] at h
    by_cases hk : k' = k
    · rw [if_pos hk] at h
      cases h
    · rw [if_neg hk] at h
      rw [omSet, if_neg hk, ih h]
      rfl

/-- A key absent from a store stays absent after appending a different
key. -/
theorem omGet_append_single {a : List (String × Val)} {k k' : String} {v : Val}
    (h : omGet a k' = none) (hk : k ≠ k') :
    omGet (a ++ [(k, v)]) k' = none := by
  induction a with
  | nil =>
    rw [List.nil_append, omGet, if_neg hk]
    rfl
  | cons p rest ih =>
    obtain ⟨k0, v0⟩ := p
    rw [omGet] at h
    by_cases h0 : k0 = k'
    · rw [if_pos h0] at h
      cases h
    · rw [if_neg h0] at h
      rw [List.cons_append, omGet, if_neg h0]
      exact ih h

/-- `With(key, val)` for a non-reserved key is a plain upsert into the field
store. -/
theorem With_field (cfg : Config) (e : Error) (k : String) (v : Val)
    (h1 : k ≠ "op") (h2 : k ≠ "kind") (h3 : k ≠ "cause") :
    e.With cfg [.str k, v] = e.setFields (omSet e.fields k v) := by
  rw [Error.With]
  have hfl : flattenArgs [Val.str k, v] = [Val.str k, v] := rfl
  rw [hfl]
  rw [if_neg (by simp)]
  have hnil : ∀ x : Error, withLoop cfg x [] = x := fun x => by
    rw [withLoop.eq_def]
  rw [withLoop.eq_def]
  simp only []
  split
  all_goals
    first
      | (rename_i heq
         exact absurd (Val.str.inj heq) h1)
      | (rename_i heq
         exact absurd (Val.str.inj heq) h2)
      | (rename_i heq
         exact absurd (Val.str.inj heq) h3)
      | (rw [hnil, omAppend, omAppend]
         rfl)

/-- Replaying a concatenation replays the parts in sequence. -/
theorem replay_append (cfg : Config) (l1 l2 : List (OrderedKey × ValOrMap)) :
    ∀ e, replay cfg e (l1 ++ l2) = replay cfg (replay cfg e l1) l2 := by
  induction l1 with
  | nil =>
    intro e
    have h0 : replay cfg e [] = e := by rw [replay]
    rw [List.nil_append, h0]
  | cons p rest ih =>
    intro e
    obtain ⟨ok, vom⟩ := p
    rw [List.cons_append]
    by_cases hk : ok.key = "stacktrace"
    · simp only [replay, if_pos hk]
      exact ih _
    · simp only [replay, if_neg hk]
      exact ih _

/-- Decoding a concatenation of member lists threads the counter. -/
theorem decodeMembers_append (l1 l2 : List (String × JSON)) :
    ∀ c, decodeMembers c (l1 ++ l2)
      = ((decodeMembers c l1).1
           ++ (decodeMembers (decodeMembers c l1).2 l2).1,
         (decodeMembers (decodeMembers c l1).2 l2).2) := by
  induction l1 with
  | nil =>
    intro c
    simp [decodeMembers]
  | cons p rest ih =>
    intro c
    obtain ⟨k, j⟩ := p
    simp only [List.cons_append, decodeMembers, List.append_eq]
    rw [ih]

/-- A non-object member value decodes to the plain value form without
consuming counter values. -/
theorem decodeValJ_flat {j : JSON} (h : ∀ xs, j ≠ JSON.jobj xs) (c : Nat) :
    decodeValJ c j = (.vv j, c) := by
  cases j with
  | jobj xs => exact absurd rfl (h xs)
  | jstr s => rfl
  | jnum n => rfl
  | jnull => rfl
  | jarr xs => rfl

/-- Replaying the decoding of members with non-reserved keys and non-object
values is a left fold of `With(key, value)` calls in document order. -/
theorem decode_replay_flat (cfg : Config) :
    ∀ (ms : List (String × JSON)), ∀ (c : Nat) (a : Error),
    (∀ p ∈ ms, p.1 ≠ "stacktrace") →
    (∀ p ∈ ms, ∀ xs, p.2 ≠ JSON.jobj xs) →
    replay cfg a (decodeMembers c ms).1
      = ms.foldl (fun acc p => acc.With cfg [.str p.1, valToGo p.2]) a := by
  intro ms
  induction ms with
  | nil =>
    intro c a _ _
    rw [List.foldl_nil]
    rw [show (decodeMembers c []).1 = [] from rfl]
    rw [replay]
  | cons p rest ih =>
    intro c a hst hobj
    obtain ⟨k, j⟩ := p
    have hdv : decodeValJ (c + 1) j = (.vv j, c + 1) :=
      decodeValJ_flat (hobj (k, j) (List.mem_cons_self _ _)) (c + 1)
    simp only [decodeMembers, hdv]
    have hks : k ≠ "stacktrace" := hst (k, j) (List.mem_cons_self _ _)
    simp only [replay, if_neg hks]
    rw [List.foldl_cons]
    have hval : vomGet cfg (ValOrMap.vv j) = valToGo j := by
      rw [vomGet]
    rw [hval]
    exact ih _ _ (fun q hq => hst q (List.mem_cons_of_mem _ hq))
      (fun q hq => hobj q (List.mem_cons_of_mem _ hq))

/-- `goodKey` unpacked. -/
theorem goodKey_spec {k : String} (h : goodKey k = true) :
    k ≠ "op" ∧ k ≠ "kind" ∧ k ≠ "cause" ∧ k ≠ "stacktrace" := by
  simp only [goodKey, Bool.not_eq_true', Bool.or_eq_false_iff, beq_eq_false_iff_ne,
    ne_eq] at h
  exact ⟨h.1.1.1, h.1.1.2, h.1.2, h.2⟩

/-- A scalar value round-trips through marshalling and decoding. -/
theorem valToGo_jsonOfVal_str (cfg : Config) {v : Val}
    (h : strVal v = true) : valToGo (jsonOfVal cfg v) = v := by
  cases v with
  | str s =>
    rw [show jsonOfVal cfg (.str s) = .jstr s from by rw [jsonOfVal]]
    rw [valToGo]
  | vint n => simp [strVal] at h
  | vnum n => simp [strVal] at h
  | kindV k => simp [strVal] at h
  | dkindV k => simp [strVal] at h
  | errV ge => simp [strVal] at h
  | slice vs => simp [strVal] at h
  | vmap ms => simp [strVal] at h
  | vnil => simp [strVal] at h

/-- A scalar value does not marshal to an object. -/
theorem jsonOfVal_str_not_obj (cfg : Config) {v : Val}
    (h : strVal v = true) : ∀ xs, jsonOfVal cfg v ≠ JSON.jobj xs := by
  cases v with
  | str s =>
    intro xs hx
    rw [show jsonOfVal cfg (.str s) = .jstr s from by rw [jsonOfVal]] at hx
    cases hx
  | vint n => simp [strVal] at h
  | vnum n => simp [strVal] at h
  | kindV k => simp [strVal] at h
  | dkindV k => simp [strVal] at h
  | errV ge => simp [strVal] at h
  | slice vs => simp [strVal] at h
  | vmap ms => simp [strVal] at h
  | vnil => simp [strVal] at h

/-- Replaying good scalar fields appends them to the receiver's store in
order. -/
theorem fold_With_fields (cfg : Config) :
    ∀ (fs : List (String × Val)) (a : Error),
    (∀ p ∈ fs, goodKey p.1 = true ∧ strVal p.2 = true) →
    (∀ p ∈ fs, omGet a.fields p.1 = none) →
    (fs.map Prod.fst).Nodup →
    fs.foldl (fun acc p => acc.With cfg [.str p.1, valToGo (jsonOfVal cfg p.2)]) a
      = a.setFields (a.fields ++ fs) := by
  intro fs
  induction fs with
  | nil =>
    intro a _ _ _
    rw [List.foldl_nil, List.append_nil]
    cases a
    rfl
  | cons p rest ih =>
    intro a hgood hdisj hnd
    obtain ⟨k, v⟩ := p
    have hk := goodKey_spec (hgood (k, v) (List.mem_cons_self _ _)).1
    have hv := (hgood (k, v) (List.mem_cons_self _ _)).2
    rw [List.foldl_cons]
    rw [valToGo_jsonOfVal_str cfg hv]
    rw [With_field cfg a k v hk.1 hk.2.1 hk.2.2.1]
    rw [omSet_append (hdisj (k, v) (List.mem_cons_self _ _))]
    rw [ih]
    · cases a
      simp [Error.setFields, Error.fields]
    · exact fun q hq => hgood q (List.mem_cons_of_mem _ hq)
    · intro q hq
      have hqa : omGet a.fields q.1 = none := hdisj q (List.mem_cons_of_mem _ hq)
      have hqk : k ≠ q.1 := by
        simp only [List.map_cons, List.nodup_cons] at hnd
        intro hcontra
        exact hnd.1 (hcontra ▸ List.mem_map.mpr ⟨q, hq, rfl⟩)
      cases a
      simp only [Error.setFields, Error.fields]
      exact omGet_append_single hqa hqk
    · simp only [List.map_cons, List.nodup_cons] at hnd
      exact hnd.2

/-- `writeFields` with an empty order emits exactly the wildcard group. -/
theorem writeFieldsSeq_nil (cfg : Config) (e : Error) :
    writeFieldsSeq cfg e [] = othersSeq cfg [] e := rfl

/-- Good field keys are all unreferenced under the empty order. -/
theorem filter_unref {cfg : Config} {e : Error} (hg : Good e = true) :
    e.fields.filter (fun p => unreferenced cfg [] p.1) = e.fields := by
  apply List.filter_eq_self.mpr
  intro p hp
  have hk := goodKey_spec (good_fields hg p hp).1
  rw [unreferenced, if_neg]
  · rfl
  · simp [hk.2.2.2]

/-- The members produced by `marshalFields` under the default field order
with stack marshalling disabled: op (when set), kind, the unreferenced
fields, the cause. -/
theorem marshalMembers_chr (cfg : Config) (e : Error) (mstk : Bool)
    (hord : cfg.defaultFieldOrder = []) (hms : cfg.marshalStacktrace = false) :
    marshalMembers cfg e mstk
      = (if e.op ≠ "" then [("op", JSON.jstr e.op)] else [])
        ++ ([("kind", JSON.jstr e.Kind)]
        ++ (((e.fields.filter fun p => unreferenced cfg [] p.1).map
              fun p => marshalStep cfg e.op e.Kind (.efield p.1 p.2))
        ++ (match e.cause with
            | some c => [marshalStep cfg e.op e.Kind (.ecause c)]
            | none => []))) := by
  have hunop : unreferenced cfg [] "op" = true := by rw [unreferenced]; simp
  have hunkind : unreferenced cfg [] "kind" = true := by rw [unreferenced]; simp
  have huncause : unreferenced cfg [] "cause" = true := by
    rw [unreferenced]; simp
  have hstep_op : marshalStep cfg e.op e.Kind .eop = ("op", JSON.jstr e.op) := by
    rw [marshalStep]
  have hstep_kind : marshalStep cfg e.op e.Kind .ekind
      = ("kind", JSON.jstr e.Kind) := by
    rw [marshalStep]
  rw [marshalMembers]
  rw [hord, writeFieldsSeq_nil, othersSeq, List.attach_map_coe, hms]
  by_cases hop : e.op ≠ ""
  all_goals cases hc : e.cause with
  | _ =>
    simp [hop, hunop, hunkind, huncause, hstep_op, hstep_kind, List.map_map,
      List.append_assoc, Function.comp]

/-- The cause of the canonical decoded shape, as a function of the original
cause. -/
def decodedCause (cfg : Config) : Option GoErr → Option GoErr
  | some (.structured c) => some (.structured (decodedC cfg c))
  | some (.opaqueE m) => some (.opaqueE m)
  | none => none

/-- `decodedC` as a non-dependent constructor application. -/
theorem decodedC_eq_mk (cfg : Config) (e : Error) :
    decodedC cfg e
      = .mk e.op e.Kind "" (decodedCause cfg e.cause) e.fields none false "" := by
  cases e with
  | mk o k dk c f s i u =>
    rcases c with _ | ge
    · rw [decodedC]
      rfl
    · cases ge with
      | structured cz =>
        rw [decodedC]
        rfl
      | opaqueE m =>
        rw [decodedC]
        rfl

/-- Decoding the encoding of a well-behaved error yields its canonical
decoded shape (any starting counter, with or without the top-level stack
member, which is disabled here). -/
theorem decode_encode (cfg : Config) (hord : cfg.defaultFieldOrder = [])
    (hms : cfg.marshalStacktrace = false) (e : Error) (hg : Good e = true)
    (c : Nat) (mstk : Bool) :
    unmarshalInto cfg Error.zero
        (decodeMembers c (marshalMembers cfg e mstk)).1
      = decodedC cfg e := by
  rw [unmarshalInto]
  rw [sortEntries_of_perm (List.Perm.refl _)
    (decodeMembers_spec c (marshalMembers cfg e mstk)).2.2]
  rw [marshalMembers_chr cfg e mstk hord hms]
  rw [filter_unref hg]
  have hFm : (e.fields.map fun p => marshalStep cfg e.op e.Kind (.efield p.1 p.2))
      = e.fields.map (fun p => (p.1, jsonOfVal cfg p.2)) := by
    apply List.map_congr_left
    intro p hp
    have hk := goodKey_spec (good_fields hg p hp).1
    have hv := (good_fields hg p hp).2
    have hstep : marshalStep cfg e.op e.Kind (.efield p.1 p.2)
        = if p.1 = "cause" then (p.1, jsonOfVal cfg p.2)
          else (p.1, jsonOfVal cfg p.2) := by
      rw [marshalStep]
      · intro cz hcz
        rw [hcz] at hv
        simp [strVal] at hv
      · intro m hm
        rw [hm] at hv
        simp [strVal] at hv
    rw [hstep, if_neg hk.2.2.1]
  rw [hFm]
  have hrest : ∀ (c2 : Nat),
      replay cfg (Error.mk e.op "" "" none [] none false "")
        (decodeMembers c2 ([("kind", JSON.jstr e.Kind)]
          ++ (e.fields.map (fun p => (p.1, jsonOfVal cfg p.2))
          ++ (match e.cause with
              | some cz => [marshalStep cfg e.op e.Kind (.ecause cz)]
              | none => [])))).1 = decodedC cfg e := by
    intro c2
    rw [decodeMembers_append]
    simp only []
    rw [replay_append]
    rw [decode_replay_flat cfg [("kind", JSON.jstr e.Kind)] c2 _
      (by simp) (by simp)]
    simp only [List.foldl_cons, List.foldl_nil]
    rw [show valToGo (JSON.jstr e.Kind) = Val.str e.Kind from by rw [valToGo]]
    rw [show (Error.mk e.op "" "" none [] none false "").With cfg
          [.str "kind", .str e.Kind]
        = (Error.mk e.op "" "" none [] none false "").WithKind e.Kind from rfl]
    rw [show (Error.mk e.op "" "" none [] none false "").WithKind e.Kind
        = Error.mk e.op e.Kind "" none [] none false "" from by
      rw [Error.WithKind, if_pos (Kind_ne_empty e)]]
    generalize (decodeMembers c2 [("kind", JSON.jstr e.Kind)]).2 = c3
    rw [decodeMembers_append]
    simp only []
    rw [replay_append]
    rw [decode_replay_flat cfg (e.fields.map (fun p => (p.1, jsonOfVal cfg p.2)))
      c3 _
      (by
        intro p hp
        obtain ⟨q, hq, rfl⟩ := List.mem_map.mp hp
        exact (goodKey_spec (good_fields hg q hq).1).2.2.2)
      (by
        intro p hp
        obtain ⟨q, hq, rfl⟩ := List.mem_map.mp hp
        exact jsonOfVal_str_not_obj cfg (good_fields hg q hq).2)]
    rw [List.foldl_map]
    rw [show (fun (acc : Error) (p : String × Val) =>
          acc.With cfg [.str (p.1, jsonOfVal cfg p.2).1,
            valToGo (p.1, jsonOfVal cfg p.2).2])
        = (fun (acc : Error) (p : String × Val) =>
          acc.With cfg [.str p.1, valToGo (jsonOfVal cfg p.2)]) from rfl]
    rw [fold_With_fields cfg e.fields
      (Error.mk e.op e.Kind "" none [] none false "")
      (good_fields hg) (by intro p hp; rfl) (good_nodup hg)]
    rw [show (Error.mk e.op e.Kind "" none [] none false "").setFields
          ((Error.mk e.op e.Kind "" none [] none false "").fields ++ e.fields)
        = Error.mk e.op e.Kind "" none ([] ++ e.fields) none false "" from rfl]
    rw [List.nil_append]
    generalize (decodeMembers c3
      (e.fields.map (fun p => (p.1, jsonOfVal cfg p.2)))).2 = c4
    cases hc : e.cause with
    | none =>
      rw [show (decodeMembers c4 ([] : List (String × JSON))).1 = [] from rfl]
      rw [replay]
      rw [decodedC_eq_mk, hc, decodedCause]
    | some ge =>
      cases ge with
      | opaqueE m =>
        show replay cfg (Error.mk e.op e.Kind "" none e.fields none false "")
            (decodeMembers c4
              [marshalStep cfg e.op e.Kind (.ecause (.opaqueE m))]).1
          = decodedC cfg e
        rw [show marshalStep cfg e.op e.Kind (.ecause (.opaqueE m))
            = ("cause", JSON.jstr m) from by rw [marshalStep]]
        rw [decode_replay_flat cfg [("cause", JSON.jstr m)] c4 _
          (by simp) (by simp)]
        simp only [List.foldl_cons, List.foldl_nil]
        rw [show valToGo (JSON.jstr m) = Val.str m from by rw [valToGo]]
        rw [show (Error.mk e.op e.Kind "" none e.fields none false "").With cfg
              [.str "cause", .str m]
            = Error.mk e.op e.Kind "" (some (.opaqueE m)) e.fields none false ""
            from rfl]
        rw [decodedC_eq_mk, hc, decodedCause]
      | structured cz =>
        show replay cfg (Error.mk e.op e.Kind "" none e.fields none false "")
            (decodeMembers c4
              [marshalStep cfg e.op e.Kind (.ecause (.structured cz))]).1
          = decodedC cfg e
        rw [show marshalStep cfg e.op e.Kind (.ecause (.structured cz))
            = ("cause", JSON.jobj (marshalMembers cfg cz false)) from by
          rw [marshalStep]]
        rw [show (decodeMembers c4
            [("cause", JSON.jobj (marshalMembers cfg cz false))]).1
            = [(⟨"cause", c4 + 1⟩,
                .vm (decodeMembers (c4 + 1) (marshalMembers cfg cz false)).1)]
            from rfl]
        simp only [replay]
        rw [if_neg (by simp :
          ¬(OrderedKey.key ⟨"cause", c4 + 1⟩ = "stacktrace"))]
        rw [vomGet]
        rw [decode_encode cfg hord hms cz (good_cause_structured hg hc).2
          (c4 + 1) false]
        rw [show (Error.mk e.op e.Kind "" none e.fields none false "").With cfg
              [.str "cause", .errV (.structured (decodedC cfg cz))]
            = Error.mk e.op e.Kind "" (some (.structured (decodedC cfg cz)))
                e.fields none false "" from rfl]
        rw [decodedC_eq_mk cfg e, hc, decodedCause]
  by_cases hop : e.op ≠ ""
  · rw [if_pos hop]
    rw [decodeMembers_append]
    simp only []
    rw [replay_append]
    rw [decode_replay_flat cfg [("op", JSON.jstr e.op)] c _ (by simp) (by simp)]
    simp only [List.foldl_cons, List.foldl_nil]
    rw [show valToGo (JSON.jstr e.op) = Val.str e.op from by rw [valToGo]]
    rw [show Error.zero.With cfg [.str "op", .str e.op]
        = Error.zero.WithOp e.op from rfl]
    rw [show Error.zero.WithOp e.op = Error.mk e.op "" "" none [] none false ""
        from by
          rw [show Error.zero = Error.mk "" "" "" none [] none false "" from rfl]
          rw [Error.WithOp, if_pos hop]]
    exact hrest _
  · rw [if_neg hop]
    have hop0 : e.op = "" := by
      by_cases hq : e.op = ""
      · exact hq
      · exact absurd hq hop
    rw [List.nil_append]
    have hz : Error.zero = Error.mk e.op "" "" none [] none false "" := by
      rw [hop0]
      rfl
    rw [hz]
    exact hrest c
termination_by sizeOf e
decreasing_by
  exact sizeOf_cause_structured hc

/-- `printOtherFields` under the empty order: op (when set), kind, all
unreferenced fields, the cause. -/
theorem othersSeq_nil (cfg : Config) (e : Error) :
    othersSeq cfg [] e
      = (if e.op ≠ "" then [FieldEmit.eop] else []) ++ ([FieldEmit.ekind]
        ++ (((e.fields.filter fun p => unreferenced cfg [] p.1).map
             (fun p => FieldEmit.efield p.1 p.2))
        ++ (match e.cause with
            | some c => [FieldEmit.ecause c]
            | none => []))) := by
  have h1 : unreferenced cfg [] "op" = true := by rw [unreferenced]; simp
  have h2 : unreferenced cfg [] "kind" = true := by rw [unreferenced]; simp
  have h3 : unreferenced cfg [] "cause" = true := by rw [unreferenced]; simp
  rw [othersSeq, h1, h2, h3]
  cases hc : e.cause with
  | none => simp [List.append_assoc]
  | some c => simp [List.append_assoc]

/-- Rendering the canonical decoded shape of a well-behaved error matches
rendering the original (no stack is printed in either: the decoded shape
carries none and the rendering below never prints one). -/
theorem render_decoded (cfg : Config) (hord : cfg.defaultFieldOrder = [])
    (e : Error) (hg : Good e = true) :
    errToString cfg (decodedC cfg e) false [] = errToString cfg e false [] := by
  rw [errToString_eq, errToString_eq]
  simp only [Bool.false_and, Bool.false_eq_true, if_false, List.isEmpty_nil,
    if_true, hord]
  rw [writeFieldsSeq_nil, writeFieldsSeq_nil, othersSeq_nil, othersSeq_nil]
  rw [decodedC_op, decodedC_fields]
  rw [filter_unref hg]
  have hdk : (decodedC cfg e).Kind = e.Kind := by
    rw [Error.Kind]
    rw [effectiveKind_explicit _ K_Other (by
      rw [decodedC_kind]
      exact Kind_ne_empty e)]
    rw [decodedC_kind]
  rw [hdk]
  cases hc : e.cause with
  | none =>
    have hcr : causeRof cfg (decodedC cfg e) = causeRof cfg e := by
      rw [causeRof, causeRof, decodedC_cause_none cfg hc, hc]
    rw [hcr, decodedC_cause_none cfg hc]
  | some ge =>
    cases ge with
    | opaqueE m =>
      have hcr : causeRof cfg (decodedC cfg e) = causeRof cfg e := by
        rw [causeRof, causeRof, decodedC_cause_opaque cfg hc, hc]
      rw [hcr, decodedC_cause_opaque cfg hc]
    | structured cz =>
      obtain ⟨hz, hgz⟩ := good_cause_structured hg hc
      have hIH := render_decoded cfg hord cz hgz
      have hzd : (decodedC cfg cz).isZero = false := by
        apply isZero_false_of_kind
        rw [decodedC_kind]
        exact Kind_ne_empty cz
      have hcr : causeRof cfg (decodedC cfg e)
          = CauseR.structuredR false (errToString cfg cz false []) := by
        rw [causeRof, decodedC_cause_structured cfg hc]
        show CauseR.structuredR (decodedC cfg cz).isZero
            (errToString cfg (decodedC cfg cz) false [])
          = CauseR.structuredR false (errToString cfg cz false [])
        rw [hzd, hIH]
      have hcre : causeRof cfg e
          = CauseR.structuredR false (errToString cfg cz false []) := by
        rw [causeRof, hc]
        show CauseR.structuredR cz.isZero (errToString cfg cz false [])
          = CauseR.structuredR false (errToString cfg cz false [])
        rw [hz]
      rw [hcr, hcre, decodedC_cause_structured cfg hc]
      rw [show (match some (GoErr.structured (decodedC cfg cz)) with
          | some c => [FieldEmit.ecause c]
          | none => ([] : List FieldEmit))
          = [FieldEmit.ecause (.structured (decodedC cfg cz))] from rfl]
      rw [show (match some (GoErr.structured cz) with
          | some c => [FieldEmit.ecause c]
          | none => ([] : List FieldEmit))
          = [FieldEmit.ecause (.structured cz)] from rfl]
      simp only [List.foldl_append, List.foldl_cons, List.foldl_nil]
      have hrs : ∀ (acc : String) (g : GoErr),
          renderStep cfg (CauseR.structuredR false (errToString cfg cz false []))
            e.op e.Kind acc (.ecause g)
          = padApp acc ("cause" ++ cfg.separator ++ errToString cfg cz false []) := by
        intro acc g
        rw [renderStep]
        rfl
      rw [hrs, hrs]
termination_by sizeOf e
decreasing_by
  exact sizeOf_cause_structured hc

/-- A configuration with stack printing and stack marshalling disabled and
the default field order. -/
def wcfg : Config := ⟨false, true, false, true, [], ":\n\t", true⟩

/-- The round-trip result of `E("x", &Error{})` (a zero-Error cause). -/
def dRT : Error :=
  .mk "x" "unclassified error" ""
    (some (.structured (.mk "" "unclassified error" "" none [] none false "")))
    [] none false ""

/-- C1 counterexample: with stack printing disabled, the error
`NoTrace("x", &Error{})` — a zero `*Error` as cause — renders without the
cause (toString skips a zero structured cause), but its JSON encoding still
carries a `"cause"` member whose decoding is no longer zero (the kind
member is materialized), so the decoded error renders the cause: the round
trip changes the rendering. -/
theorem C1_counterexample :
    wcfg.printStacktrace = false
    ∧ Error.UnmarshalJSONDoc wcfg Error.zero
        (Error.MarshalJSONDoc wcfg
          (NoTrace wcfg [.str "x", .errV (.structured Error.zero)])) 0
      = some dRT
    ∧ Error.ErrorStr wcfg dRT
      = "op [x] kind [unclassified error] cause:\n\tkind [unclassified error]"
    ∧ Error.ErrorStr wcfg (NoTrace wcfg [.str "x", .errV (.structured Error.zero)])
      = "op [x] kind [unclassified error]"
    ∧ ("op [x] kind [unclassified error] cause:\n\tkind [unclassified error]"
        : String)
      ≠ "op [x] kind [unclassified error]" := by
  refine ⟨rfl, ?_, ?_, ?_, by decide⟩
  · have he0 : NoTrace wcfg [.str "x", .errV (.structured Error.zero)]
        = Error.mk "x" "" "" (some (.structured Error.zero)) [] none false "" :=
      rfl
    rw [he0]
    have hemits0 : writeFieldsSeq wcfg Error.zero wcfg.defaultFieldOrder
        = [.ekind] := rfl
    have hm0 : marshalMembers wcfg Error.zero false
        = [("kind", JSON.jstr "unclassified error")] := by
      rw [marshalMembers]
      simp +decide [List.attach_map_coe, hemits0, marshalStep, Error.hasStack,
        Error.Kind, Error.effectiveKind, K_Other]
    have hemits1 : writeFieldsSeq wcfg
        (Error.mk "x" "" "" (some (.structured Error.zero)) [] none false "")
        wcfg.defaultFieldOrder
        = [.eop, .ekind, .ecause (.structured Error.zero)] := rfl
    have hm1 : marshalMembers wcfg
        (Error.mk "x" "" "" (some (.structured Error.zero)) [] none false "") true
        = [("op", JSON.jstr "x"), ("kind", JSON.jstr "unclassified error"),
           ("cause", JSON.jobj [("kind", JSON.jstr "unclassified error")])] := by
      rw [marshalMembers]
      simp +decide [List.attach_map_coe, hemits1, marshalStep, hm0,
        Error.hasStack, Error.op, Error.Kind, Error.effectiveKind, K_Other]
    rw [show Error.MarshalJSONDoc wcfg
        (Error.mk "x" "" "" (some (.structured Error.zero)) [] none false "")
        = JSON.jobj (marshalMembers wcfg
            (Error.mk "x" "" "" (some (.structured Error.zero)) [] none false "")
            true) from rfl]
    rw [hm1]
    rw [show Error.UnmarshalJSONDoc wcfg Error.zero
        (JSON.jobj [("op", JSON.jstr "x"),
          ("kind", JSON.jstr "unclassified error"),
          ("cause", JSON.jobj [("kind", JSON.jstr "unclassified error")])]) 0
        = some (unmarshalInto wcfg Error.zero
            (decodeMembers 0 [("op", JSON.jstr "x"),
              ("kind", JSON.jstr "unclassified error"),
              ("cause", JSON.jobj
                [("kind", JSON.jstr "unclassified error")])]).1) from rfl]
    have hinner : unmarshalInto wcfg Error.zero
        [(⟨"kind", 4⟩, ValOrMap.vv (JSON.jstr "unclassified error"))]
        = Error.mk "" "unclassified error" "" none [] none false "" := by
      rw [unmarshalInto]
      rw [show sortEntries
          [(⟨"kind", 4⟩, ValOrMap.vv (JSON.jstr "unclassified error"))]
          = [(⟨"kind", 4⟩, ValOrMap.vv (JSON.jstr "unclassified error"))]
          from rfl]
      simp +decide only [replay, vomGet, valToGo]
      rfl
    rw [unmarshalInto]
    rw [show sortEntries (decodeMembers 0 [("op", JSON.jstr "x"),
          ("kind", JSON.jstr "unclassified error"),
          ("cause", JSON.jobj [("kind", JSON.jstr "unclassified error")])]).1
        = [(⟨"op", 1⟩, .vv (.jstr "x")),
           (⟨"kind", 2⟩, .vv (.jstr "unclassified error")),
           (⟨"cause", 3⟩,
            .vm [(⟨"kind", 4⟩, .vv (.jstr "unclassified error"))])] from rfl]
    simp +decide only [replay, vomGet, valToGo]
    rw [hinner]
    rfl
  · simp [wcfg, dRT, Error.ErrorStr, errToString_eq, writeFieldsSeq,
      writeFieldsGo, othersSeq, unreferenced, Error.fieldEmit, Error.Kind,
      Error.effectiveKind, K_Other, Error.fields, Error.cause, Error.op,
      Error.kind, Error.hasStack, Error.ignoreStack, renderStep, writeKV,
      padApp, sprint, sprintErr, Error.isZero, omGet, causeRof]
  · simp [wcfg, Error.ErrorStr, errToString_eq, NoTrace, flattenArgs,
      Error.With, withLoop, Error.WithOp, Error.WithCause, Error.zero,
      writeFieldsSeq, writeFieldsGo, othersSeq, unreferenced, Error.fieldEmit,
      Error.Kind, Error.effectiveKind, K_Other, Error.fields, Error.cause,
      Error.op, Error.kind, Error.hasStack, Error.ignoreStack, renderStep,
      writeKV, padApp, sprint, sprintErr, Error.isZero, omGet, causeRof]

/-- C1 (amended): with stack printing disabled, stack marshalling disabled
and the default field order, a well-behaved error (string-valued fields
with distinct non-reserved keys, structured causes non-zero all the way
down) round-trips: decoding the encoding yields the canonical decoded
shape (same op and fields, the rendered effective kind as explicit kind,
the cause decoded recursively), and rendering that decoded error yields
exactly the original rendering.  Without the well-behavedness restriction
the statement is false: a zero structured cause renders nowhere but
round-trips into a non-zero cause that does render (`C1` counterexample),
and a number field such as `1000000` decodes to `float64` and renders as
`1e+06` (hence `Good` admits only string values). -/
theorem C1_render_roundtrip_amended (cfg : Config)
    (hps : cfg.printStacktrace = false)
    (hord : cfg.defaultFieldOrder = [])
    (hms : cfg.marshalStacktrace = false)
    (e : Error) (hg : Good e = true) (c : Nat) :
    Error.UnmarshalJSONDoc cfg Error.zero (Error.MarshalJSONDoc cfg e) c
      = some (decodedC cfg e)
    ∧ Error.ErrorStr cfg (decodedC cfg e) = Error.ErrorStr cfg e := by
  constructor
  · rw [show Error.UnmarshalJSONDoc cfg Error.zero
        (Error.MarshalJSONDoc cfg e) c
        = some (unmarshalInto cfg Error.zero
            (decodeMembers c (marshalMembers cfg e true)).1) from rfl]
    rw [decode_encode cfg hord hms e hg c true]
  · rw [Error.ErrorStr, Error.ErrorStr]
    have hgen := render_decoded cfg hord e hg
    rw [errToString_eq, errToString_eq] at hgen ⊢
    simp only [hps, Bool.and_false, Bool.false_and, Bool.true_and,
      Bool.false_eq_true, if_false] at hgen ⊢
    exact hgen

/-- C1 witness. -/
theorem C1_render_roundtrip_amended_witness :
    (wcfg.printStacktrace = false ∧ wcfg.defaultFieldOrder = []
      ∧ wcfg.marshalStacktrace = false
      ∧ Good (NoTrace wcfg [.str "op1", .errV (.opaqueE "EOF"),
          .str "a", .str "1"]) = true)
    ∧ Error.UnmarshalJSONDoc wcfg Error.zero
        (Error.MarshalJSONDoc wcfg (NoTrace wcfg [.str "op1",
          .errV (.opaqueE "EOF"), .str "a", .str "1"])) 0
      = some (decodedC wcfg (NoTrace wcfg [.str "op1",
          .errV (.opaqueE "EOF"), .str "a", .str "1"]))
    ∧ Error.ErrorStr wcfg (decodedC wcfg (NoTrace wcfg [.str "op1",
        .errV (.opaqueE "EOF"), .str "a", .str "1"]))
      = Error.ErrorStr wcfg (NoTrace wcfg [.str "op1",
          .errV (.opaqueE "EOF"), .str "a", .str "1"]) := by
  have hg : Good (NoTrace wcfg [.str "op1", .errV (.opaqueE "EOF"),
      .str "a", .str "1"]) = true := by
    rw [Good]
    decide
  exact ⟨⟨rfl, rfl, rfl, hg⟩,
    (C1_render_roundtrip_amended wcfg rfl rfl rfl _ hg 0).1,
    (C1_render_roundtrip_amended wcfg rfl rfl rfl _ hg 0).2⟩

end ErrorsGo